import Mathlib

/-!
# Verification of the comment-scraper pipeline

Shallow embedding, in Lean 4, of the pure parts of the `commit-summary`
repository (a TikTok/Douyin comment scraper with LLM sentiment analysis):

* the URL/video-id resolvers (`douyin_api.py:_extract_video_id`,
  `douyin_pro.py:_extract_video_id`, `tiktok.py:_extract_video_id`),
* the Douyin API pagination loop (`douyin_api.py:DouyinAPIScraper.scrape`)
  together with its comment normaliser (`_parse_comments`) and the
  alternative-endpoint fallback (`_try_alternative_api`),
* the TikTok hidden-API pagination loop
  (`tiktok.py:TikTokAPIScraper.scrape_video_comments`) and its normaliser
  (`_parse_comment`, including the pydantic integer coercion of the model
  `Comment`),
* the rendered-page extractor (`tiktok.py:TikTokScraper._extract_comments`),
* the hash-based deduplicating extractor
  (`douyin_pro.py:DouyinScraperPro._extract_comments_advanced`),
* the LLM response parser (`llm/client.py:_parse_sentiment_response`),
* the exit-code logic of the two command-line entry points
  (`cli.py:main` and `douyin_api.py:main`).

Network transport, the browser, the LLM endpoint, the system clock and
Python's `json.loads` are external collaborators; they enter the model as
explicit data (response streams `Nat → …`, a `now` timestamp parameter, an
abstract JSON-parser parameter).  Python strings are modelled as `List Char`
(one entry per code point, matching Python `len`/slicing), Python `str.split`
/ `in` / `strip` / slices are re-implemented below with Python semantics, and
Python's string hash is an explicit function parameter `h : String → Int`.
-/

namespace PyStr

/-- Python-style prefix test on character lists: `isPre p s` iff `p` is a
prefix of `s`. -/
def isPre : List Char → List Char → Bool
  | [], _ => true
  | _ :: _, [] => false
  | a :: as, b :: bs => a = b && isPre as bs

theorem isPre_iff (p s : List Char) : isPre p s = true ↔ ∃ t, s = p ++ t := by
  induction p generalizing s with
  | nil => simp [isPre]
  | cons a as ih =>
    cases s with
    | nil => simp [isPre]
    | cons b bs =>
      simp only [isPre, Bool.and_eq_true, decide_eq_true_eq, ih]
      constructor
      · rintro ⟨rfl, t, rfl⟩; exact ⟨t, rfl⟩
      · rintro ⟨t, h⟩
        cases h
        exact ⟨rfl, t, rfl⟩

theorem isPre_append (p t : List Char) : isPre p (p ++ t) = true :=
  (isPre_iff p (p ++ t)).2 ⟨t, rfl⟩

/-- Helper for `splitFuel`: prepend a character to the first chunk. -/
def consHead (c : Char) : List (List Char) → List (List Char)
  | [] => [[c]]
  | h :: t => (c :: h) :: t

/-- Fuel-bounded worker for Python's `str.split(sep)` (non-overlapping,
left-to-right).  The fuel is only a structural-recursion bound; it never runs
out when it starts at `s.length` (see `pySplit`). -/
def splitFuel (sep : List Char) : Nat → List Char → List (List Char)
  | 0, s => [s]
  | fuel + 1, s =>
    if sep.isEmpty then [s]
    else if isPre sep s then [] :: splitFuel sep fuel (s.drop sep.length)
    else
      match s with
      | [] => [[]]
      | c :: t => consHead c (splitFuel sep fuel t)

theorem splitFuel_succ (sep : List Char) (n : Nat) (s : List Char) :
    splitFuel sep (n + 1) s =
      if sep.isEmpty then [s]
      else if isPre sep s then [] :: splitFuel sep n (s.drop sep.length)
      else
        match s with
        | [] => [[]]
        | c :: t => consHead c (splitFuel sep n t) := rfl

/-- Python `s.split(sep)` on character lists (for non-empty `sep`;
Python raises on an empty separator, which never occurs in this code base). -/
def pySplit (sep s : List Char) : List (List Char) :=
  splitFuel sep s.length s

/-- Python `sep in s` (substring containment). -/
def pyContains (sep : List Char) : List Char → Bool
  | [] => isPre sep []
  | c :: t => isPre sep (c :: t) || pyContains sep t

theorem pyContains_iff (sep s : List Char) :
    pyContains sep s = true ↔ ∃ x y, s = x ++ sep ++ y := by
  induction s with
  | nil =>
    simp only [pyContains, isPre_iff]
    constructor
    · rintro ⟨t, ht⟩
      exact ⟨[], t, by simpa using ht⟩
    · rintro ⟨x, y, hxy⟩
      rcases List.append_eq_nil.1 hxy.symm with ⟨hxs, hy⟩
      rcases List.append_eq_nil.1 hxs with ⟨hx, hsep⟩
      exact ⟨[], by simp [hsep]⟩
  | cons c t ih =>
    simp only [pyContains, Bool.or_eq_true, ih, isPre_iff]
    constructor
    · rintro (⟨u, hu⟩ | ⟨x, y, rfl⟩)
      · exact ⟨[], u, by simpa using hu⟩
      · exact ⟨c :: x, y, rfl⟩
    · rintro ⟨x, y, hxy⟩
      cases x with
      | nil => exact Or.inl ⟨y, by simpa using hxy⟩
      | cons a as =>
        rcases List.cons_eq_cons.1 hxy with ⟨rfl, h2⟩
        exact Or.inr ⟨as, y, h2⟩

/-- The list of positions at which `sep` occurs inside `s` (all occurrences,
including overlapping ones). -/
def occList (sep s : List Char) : List Nat :=
  (List.range (s.length + 1)).filter fun p => isPre sep (s.drop p)

theorem mem_occList_of_decomp {sep s x y : List Char}
    (h : s = x ++ sep ++ y) : x.length ∈ occList sep s := by
  refine List.mem_filter.2 ⟨List.mem_range.2 ?_, ?_⟩
  · have : s.length = x.length + (sep.length + y.length) := by
      subst h; simp [List.length_append, Nat.add_assoc]
    omega
  · subst h
    rw [List.append_assoc, List.drop_left]
    exact isPre_append sep y

/-- When `occList sep s = [p]`, every decomposition of `s` around `sep` cuts
at position `p`. -/
theorem decomp_unique_of_occList {sep s : List Char} {p : Nat}
    (h : occList sep s = [p]) :
    ∀ x y, s = x ++ sep ++ y → x = s.take p := by
  intro x y hxy
  have hx : x.length ∈ occList sep s := mem_occList_of_decomp hxy
  rw [h, List.mem_singleton] at hx
  subst hx
  subst hxy
  rw [List.append_assoc, List.take_left]

/-- A separator occurring nowhere splits to the single chunk `[s]`. -/
theorem splitFuel_no_occ (sep : List Char) (hsep : sep ≠ []) :
    ∀ fuel s, s.length ≤ fuel → (∀ x y, s ≠ x ++ sep ++ y) →
      splitFuel sep fuel s = [s] := by
  intro fuel
  induction fuel with
  | zero => intro s _ _; rfl
  | succ n ih =>
    intro s hlen hno
    rw [splitFuel_succ]
    have hne : sep.isEmpty = false := by
      cases sep with
      | nil => exact absurd rfl hsep
      | cons a as => rfl
    rw [hne]
    simp only [Bool.false_eq_true, if_false]
    have hpre : isPre sep s = false := by
      by_contra hc
      have : isPre sep s = true := by
        cases hb : isPre sep s with
        | false => exact absurd hb hc
        | true => rfl
      rcases (isPre_iff sep s).1 this with ⟨t, ht⟩
      exact hno [] t (by simpa using ht)
    rw [hpre]
    simp only [Bool.false_eq_true, if_false]
    cases s with
    | nil => rfl
    | cons c t =>
      have ht : splitFuel sep n t = [t] := by
        refine ih t (by simpa using Nat.le_of_succ_le_succ hlen) ?_
        intro x y hxy
        exact hno (c :: x) y (by simp [hxy])
      show consHead c (splitFuel sep n t) = [c :: t]
      rw [ht]
      rfl

/-- If `sep` occurs in `a ++ sep ++ b` only at the cut shown, the split is
exactly `[a, b]`. -/
theorem splitFuel_unique_occ (sep : List Char) (hsep : sep ≠ []) :
    ∀ fuel a b, (a ++ sep ++ b).length ≤ fuel →
      (∀ x y, a ++ sep ++ b = x ++ sep ++ y → x = a) →
      (∀ x y, b ≠ x ++ sep ++ y) →
      splitFuel sep fuel (a ++ sep ++ b) = [a, b] := by
  intro fuel
  induction fuel with
  | zero =>
    intro a b hlen _ _
    exfalso
    have hs : 0 < sep.length := List.length_pos.2 hsep
    have hlen' : (a ++ sep ++ b).length = a.length + sep.length + b.length := by
      simp [List.length_append]; omega
    omega
  | succ n ih =>
    intro a b hlen huniq hnob
    rw [splitFuel_succ]
    have hne : sep.isEmpty = false := by
      cases sep with
      | nil => exact absurd rfl hsep
      | cons x xs => rfl
    rw [hne]
    simp only [Bool.false_eq_true, if_false]
    cases a with
    | nil =>
      have hpre : isPre sep (sep ++ b) = true := isPre_append sep b
      simp only [List.nil_append] at *
      rw [hpre]
      simp only [if_true]
      have hdrop : (sep ++ b).drop sep.length = b := List.drop_left sep b
      rw [hdrop]
      have hb : splitFuel sep n b = [b] := by
        refine splitFuel_no_occ sep hsep n b ?_ hnob
        have hs : 0 < sep.length := List.length_pos.2 hsep
        have hlen' : (sep ++ b).length = sep.length + b.length := by
          simp [List.length_append]
        omega
      rw [hb]
    | cons c a' =>
      have hpre : isPre sep (c :: a' ++ sep ++ b) = false := by
        by_contra hc
        have hp : isPre sep (c :: a' ++ sep ++ b) = true := by
          cases hb2 : isPre sep (c :: a' ++ sep ++ b) with
          | false => exact absurd hb2 hc
          | true => rfl
        rcases (isPre_iff _ _).1 hp with ⟨t, ht⟩
        have := huniq [] t (by simpa using ht)
        exact List.cons_ne_nil c a' this.symm
      rw [hpre]
      simp only [Bool.false_eq_true, if_false]
      have hrec : splitFuel sep n (a' ++ sep ++ b) = [a', b] := by
        refine ih a' b ?_ ?_ hnob
        · have h1 : (c :: a' ++ sep ++ b).length =
              a'.length + sep.length + b.length + 1 := by
            simp [List.length_append]; omega
          have h2 : (a' ++ sep ++ b).length =
              a'.length + sep.length + b.length := by
            simp [List.length_append]; omega
          omega
        · intro x y hxy
          have := huniq (c :: x) y (by simp [hxy])
          exact (List.cons_eq_cons.1 this).2
      show consHead c (splitFuel sep n (a' ++ sep ++ b)) = [c :: a', b]
      rw [hrec]; rfl

theorem consHead_headD (c : Char) (ls : List (List Char)) :
    (consHead c ls).headD [] = c :: ls.headD [] := by
  cases ls <;> rfl

/-- Head chunk of a single-character split: everything before the first
occurrence of the delimiter. -/
theorem splitFuel_single_headD (d : Char) :
    ∀ fuel mid rest, (mid ++ d :: rest).length ≤ fuel → d ∉ mid →
      (splitFuel [d] fuel (mid ++ d :: rest)).headD [] = mid := by
  intro fuel
  induction fuel with
  | zero =>
    intro mid rest hlen _
    simp [List.length_append] at hlen
  | succ n ih =>
    intro mid rest hlen hmem
    rw [splitFuel_succ]
    simp only [List.isEmpty_cons, Bool.false_eq_true, if_false]
    cases mid with
    | nil =>
      have hpre : isPre [d] (d :: rest) = true := by
        simp [isPre]
      simp [hpre]
    | cons c m' =>
      have hpre : isPre [d] (c :: (m' ++ d :: rest)) = false := by
        have hcd : d ≠ c := fun h => hmem (h ▸ List.mem_cons_self c m')
        simp [isPre, hcd]
      simp only [List.cons_append, hpre, Bool.false_eq_true, if_false]
      rw [consHead_headD]
      have : (splitFuel [d] n (m' ++ d :: rest)).headD [] = m' := by
        refine ih m' rest ?_ (fun hm => hmem (List.mem_cons_of_mem c hm))
        simp [List.length_append] at hlen ⊢
        omega
      rw [this]

theorem mem_of_middle {s x y : List Char} {d : Char}
    (h : s = x ++ d :: y) : d ∈ s := by
  subst h
  exact List.mem_append.2 (Or.inr (List.mem_cons_self d y))

end PyStr

open PyStr

/-! ## URL/ID resolvers

`douyin_api.py:_extract_video_id` (sentinel `""`),
`douyin_pro.py:_extract_video_id` (sentinel `"unknown"`),
`tiktok.py:TikTokScraper._extract_video_id` (sentinel `"unknown_video"`,
`/video/` shape only), and
`tiktok.py:TikTokAPIScraper._extract_video_id` (sentinel `""`,
`/video/` shape only).  Each mirrors
`url.split(marker)[-1].split(delim)[0]` with the marker-precedence of the
source; the Python bodies are wrapped in `try/except`, but `str.split`
cannot raise, so the functions are total, as are these models. -/

def modalMarker : List Char := "modal_id=".data

def videoMarker : List Char := "/video/".data

/-- Last chunk, Python `split(...)[-1]` (a split is never empty). -/
def pyLastChunk (ls : List (List Char)) : List Char := ls.getLastD []

/-- First chunk, Python `split(...)[0]`. -/
def pyFirstChunk (ls : List (List Char)) : List Char := ls.headD []

namespace DouyinAPI

/-- Model of `DouyinAPIScraper._extract_video_id`. -/
def extractVideoId (url : String) : String :=
  if pyContains modalMarker url.data then
    ⟨pyFirstChunk (pySplit ['&'] (pyLastChunk (pySplit modalMarker url.data)))⟩
  else if pyContains videoMarker url.data then
    ⟨pyFirstChunk (pySplit ['?'] (pyLastChunk (pySplit videoMarker url.data)))⟩
  else ""

end DouyinAPI

namespace DouyinPro

/-- Model of `DouyinScraperPro._extract_video_id`. -/
def extractVideoId (url : String) : String :=
  if pyContains modalMarker url.data then
    ⟨pyFirstChunk (pySplit ['&'] (pyLastChunk (pySplit modalMarker url.data)))⟩
  else if pyContains videoMarker url.data then
    ⟨pyFirstChunk (pySplit ['?'] (pyLastChunk (pySplit videoMarker url.data)))⟩
  else "unknown"

end DouyinPro

namespace TikTokBrowser

/-- Model of `TikTokScraper._extract_video_id`. -/
def extractVideoId (url : String) : String :=
  if pyContains videoMarker url.data then
    ⟨pyFirstChunk (pySplit ['?'] (pyLastChunk (pySplit videoMarker url.data)))⟩
  else "unknown_video"

end TikTokBrowser

namespace TikTokAPI

/-- Model of `TikTokAPIScraper._extract_video_id`. -/
def extractVideoId (url : String) : String :=
  if pyContains videoMarker url.data then
    ⟨pyFirstChunk (pySplit ['?'] (pyLastChunk (pySplit videoMarker url.data)))⟩
  else ""

end TikTokAPI

namespace PyStr

/-- Core fact behind all four resolvers: when the marker occurs exactly once,
`split(marker)[-1].split(delim)[0]` is the exact segment between the marker
and the next delimiter (or the end of the string). -/
theorem split_marker_mid {M : List Char} (hM : M ≠ []) (d : Char)
    (pre mid post : List Char)
    (hocc : occList M (pre ++ M ++ mid ++ post) = [pre.length])
    (hd : d ∉ mid) (hpost : post = [] ∨ ∃ t, post = d :: t) :
    pyFirstChunk
      (pySplit [d] (pyLastChunk (pySplit M (pre ++ M ++ mid ++ post)))) = mid := by
  have huniq : ∀ x y, pre ++ M ++ mid ++ post = x ++ M ++ y → x = pre := by
    intro x y hxy
    have := decomp_unique_of_occList hocc x y hxy
    rw [this, List.append_assoc, List.append_assoc, List.take_left]
  have hnob : ∀ x y, mid ++ post ≠ x ++ M ++ y := by
    intro x y hxy
    have hurl : pre ++ M ++ mid ++ post = (pre ++ M ++ x) ++ M ++ y := by
      rw [List.append_assoc (pre ++ M) mid post, hxy]
      simp [List.append_assoc]
    have heq := huniq (pre ++ M ++ x) y hurl
    have hlen : (pre ++ M ++ x).length = pre.length := congrArg List.length heq
    rw [List.length_append, List.length_append] at hlen
    have hM0 : 0 < M.length := List.length_pos.2 hM
    omega
  have hsplit1 : pySplit M (pre ++ M ++ mid ++ post) = [pre, mid ++ post] := by
    rw [pySplit]
    have harr : pre ++ M ++ mid ++ post = pre ++ M ++ (mid ++ post) := by
      simp [List.append_assoc]
    rw [harr]
    refine splitFuel_unique_occ M hM _ pre (mid ++ post) le_rfl ?_ hnob
    intro x y hxy
    exact huniq x y (by rw [harr]; exact hxy)
  rw [hsplit1]
  have hlast : pyLastChunk [pre, mid ++ post] = mid ++ post := rfl
  rw [hlast]
  rcases hpost with rfl | ⟨t, rfl⟩
  · rw [List.append_nil]
    have hno : ∀ x y, mid ≠ x ++ [d] ++ y := by
      intro x y hxy
      exact hd (mem_of_middle (by simpa using hxy))
    rw [pySplit, splitFuel_no_occ [d] (by simp) mid.length mid le_rfl hno]
    rfl
  · rw [pySplit]
    exact splitFuel_single_headD d _ mid t le_rfl hd

theorem pyContains_of_decomp {sep x y : List Char} {s : List Char}
    (h : s = x ++ sep ++ y) : pyContains sep s = true :=
  (pyContains_iff sep s).2 ⟨x, y, h⟩

end PyStr

/-- Claim C4: for every URL string containing a known video-id marker (a
`modal_id=` query parameter or a `/video/` path segment, the former taking
precedence), the Douyin resolvers return the exact substring between the
marker and the next delimiter (`&` after `modal_id=`, `?` after `/video/`);
for every URL with no known marker they return their sentinel (`""` for
`douyin_api`, `"unknown"` for `douyin_pro`).  The marker occurrence is pinned
by `occList … = [pre.length]` (the marker occurs exactly once); `mid` must be
delimiter-free and `post` empty or starting with the delimiter, which is
exactly what "the substring between the marker and the next delimiter" means.
The resolvers never raise: they are total functions by construction,
mirroring the source's `try/except` around code that cannot raise. -/
theorem claim_C4_resolver_exact :
    (∀ pre mid post : List Char,
      occList modalMarker (pre ++ modalMarker ++ mid ++ post) = [pre.length] →
      '&' ∉ mid → (post = [] ∨ ∃ t, post = '&' :: t) →
      DouyinAPI.extractVideoId ⟨pre ++ modalMarker ++ mid ++ post⟩ = ⟨mid⟩ ∧
      DouyinPro.extractVideoId ⟨pre ++ modalMarker ++ mid ++ post⟩ = ⟨mid⟩) ∧
    (∀ pre mid post : List Char,
      pyContains modalMarker (pre ++ videoMarker ++ mid ++ post) = false →
      occList videoMarker (pre ++ videoMarker ++ mid ++ post) = [pre.length] →
      '?' ∉ mid → (post = [] ∨ ∃ t, post = '?' :: t) →
      DouyinAPI.extractVideoId ⟨pre ++ videoMarker ++ mid ++ post⟩ = ⟨mid⟩ ∧
      DouyinPro.extractVideoId ⟨pre ++ videoMarker ++ mid ++ post⟩ = ⟨mid⟩) ∧
    (∀ url : String,
      pyContains modalMarker url.data = false →
      pyContains videoMarker url.data = false →
      DouyinAPI.extractVideoId url = "" ∧
      DouyinPro.extractVideoId url = "unknown") := by
  refine ⟨?_, ?_, ?_⟩
  · intro pre mid post hocc hd hpost
    have hin : pyContains modalMarker (pre ++ modalMarker ++ mid ++ post) = true :=
      pyContains_of_decomp (x := pre) (y := mid ++ post) (by simp [List.append_assoc])
    have hmid := split_marker_mid (M := modalMarker) (by decide) '&'
      pre mid post hocc hd hpost
    constructor
    · rw [DouyinAPI.extractVideoId]
      simp only [hin, if_true]
      exact congrArg String.mk hmid
    · rw [DouyinPro.extractVideoId]
      simp only [hin, if_true]
      exact congrArg String.mk hmid
  · intro pre mid post hnomodal hocc hd hpost
    have hin : pyContains videoMarker (pre ++ videoMarker ++ mid ++ post) = true :=
      pyContains_of_decomp (x := pre) (y := mid ++ post) (by simp [List.append_assoc])
    have hmid := split_marker_mid (M := videoMarker) (by decide) '?'
      pre mid post hocc hd hpost
    constructor
    · rw [DouyinAPI.extractVideoId]
      simp only [hnomodal, hin, if_true, Bool.false_eq_true, if_false]
      exact congrArg String.mk hmid
    · rw [DouyinPro.extractVideoId]
      simp only [hnomodal, hin, if_true, Bool.false_eq_true, if_false]
      exact congrArg String.mk hmid
  · intro url h1 h2
    constructor
    · rw [DouyinAPI.extractVideoId]
      simp only [h1, h2, Bool.false_eq_true, if_false]
    · rw [DouyinPro.extractVideoId]
      simp only [h1, h2, Bool.false_eq_true, if_false]

/-- Witness for C4 at concrete URLs of each of the three shapes. -/
theorem claim_C4_resolver_exact_witness :
    DouyinAPI.extractVideoId
        "https://www.douyin.com/user/xyz?modal_id=7597&sub=1" = "7597" ∧
    DouyinPro.extractVideoId
        "https://www.douyin.com/user/xyz?modal_id=7597&sub=1" = "7597" ∧
    DouyinAPI.extractVideoId
        "https://www.tiktok.com/@user/video/123?lang=en" = "123" ∧
    DouyinAPI.extractVideoId "https://example.com/page" = "" ∧
    DouyinPro.extractVideoId "https://example.com/page" = "unknown" := by
  have h1 := claim_C4_resolver_exact.1
    "https://www.douyin.com/user/xyz?".data "7597".data "&sub=1".data
    (by decide) (by decide) (Or.inr ⟨"sub=1".data, by decide⟩)
  have h2 := claim_C4_resolver_exact.2.1
    "https://www.tiktok.com/@user".data "123".data "?lang=en".data
    (by decide) (by decide) (by decide) (Or.inr ⟨"lang=en".data, by decide⟩)
  have h3 := claim_C4_resolver_exact.2.2
    "https://example.com/page" (by decide) (by decide)
  exact ⟨h1.1, h1.2, h2.1, h3.1, h3.2⟩

namespace PyNum

/-- Little-endian decimal digits, fuel-bounded worker (the fuel never runs
out starting from `n`, see `decDigits`). -/
def decDigitsGo : Nat → Nat → List Nat
  | _, 0 => []
  | 0, _ + 1 => []
  | fuel + 1, n + 1 => ((n + 1) % 10) :: decDigitsGo fuel ((n + 1) / 10)

/-- Little-endian decimal digits of a natural number. -/
def decDigits (n : Nat) : List Nat := decDigitsGo n n

theorem decDigitsGo_zero (f : Nat) : decDigitsGo f 0 = [] := by
  cases f <;> rfl

theorem decDigitsGo_congr :
    ∀ f1 f2 n, n ≤ f1 → n ≤ f2 → decDigitsGo f1 n = decDigitsGo f2 n := by
  intro f1
  induction f1 with
  | zero =>
    intro f2 n h1 _
    have : n = 0 := Nat.le_zero.1 h1
    subst this
    rw [decDigitsGo_zero, decDigitsGo_zero]
  | succ g ih =>
    intro f2 n h1 h2
    cases n with
    | zero => rw [decDigitsGo_zero, decDigitsGo_zero]
    | succ m =>
      cases f2 with
      | zero => omega
      | succ g2 =>
        show ((m + 1) % 10) :: decDigitsGo g ((m + 1) / 10) =
          ((m + 1) % 10) :: decDigitsGo g2 ((m + 1) / 10)
        have hq : (m + 1) / 10 < m + 1 := Nat.div_lt_self (Nat.succ_pos m) (by omega)
        rw [ih g2 ((m + 1) / 10) (by omega) (by omega)]

/-- Value of a little-endian decimal digit list. -/
def decVal : List Nat → Nat
  | [] => 0
  | d :: ds => d + 10 * decVal ds

theorem decVal_decDigits : ∀ n, decVal (decDigits n) = n := by
  intro n
  induction n using Nat.strong_induction_on with
  | _ n ih =>
    cases n with
    | zero => rfl
    | succ m =>
      show decVal (((m + 1) % 10) :: decDigitsGo m ((m + 1) / 10)) = m + 1
      have hq : (m + 1) / 10 < m + 1 := Nat.div_lt_self (Nat.succ_pos m) (by omega)
      have hcongr : decDigitsGo m ((m + 1) / 10) = decDigits ((m + 1) / 10) :=
        decDigitsGo_congr m ((m + 1) / 10) ((m + 1) / 10) (by omega) le_rfl
      rw [decVal, hcongr, ih ((m + 1) / 10) hq]
      omega

theorem decDigits_lt_ten : ∀ f n d, d ∈ decDigitsGo f n → d < 10 := by
  intro f
  induction f with
  | zero =>
    intro n d hd
    cases n with
    | zero => rw [decDigitsGo_zero] at hd; cases hd
    | succ m => cases hd
  | succ g ih =>
    intro n d hd
    cases n with
    | zero => rw [decDigitsGo_zero] at hd; cases hd
    | succ m =>
      rcases List.mem_cons.1 hd with h | h
      · subst h; exact Nat.mod_lt _ (by omega)
      · exact ih _ _ h

/-- Decimal rendering of a natural number, Python `str(int)` for
non-negative values. -/
def decRepr (n : Nat) : String :=
  if n = 0 then "0" else ⟨((decDigits n).reverse.map Nat.digitChar)⟩

theorem digitChar_inj_lt :
    ∀ a, a < 10 → ∀ b, b < 10 → Nat.digitChar a = Nat.digitChar b → a = b := by
  decide

theorem map_digitChar_inj :
    ∀ l1 l2 : List Nat, (∀ x ∈ l1, x < 10) → (∀ x ∈ l2, x < 10) →
      l1.map Nat.digitChar = l2.map Nat.digitChar → l1 = l2 := by
  intro l1
  induction l1 with
  | nil =>
    intro l2 _ _ h
    cases l2 with
    | nil => rfl
    | cons b bs => cases h
  | cons a as ih =>
    intro l2 h1 h2 h
    cases l2 with
    | nil => cases h
    | cons b bs =>
      simp only [List.map_cons, List.cons.injEq] at h
      have hab : a = b :=
        digitChar_inj_lt a (h1 a (List.mem_cons_self a as)) b
          (h2 b (List.mem_cons_self b bs)) h.1
      have : as = bs :=
        ih bs (fun x hx => h1 x (List.mem_cons_of_mem a hx))
          (fun x hx => h2 x (List.mem_cons_of_mem b hx)) h.2
      rw [hab, this]

theorem decRepr_inj : ∀ a b : Nat, decRepr a = decRepr b → a = b := by
  have key : ∀ b : Nat, b ≠ 0 →
      ("0" : String) ≠ ⟨((decDigits b).reverse.map Nat.digitChar)⟩ := by
    intro b hb h
    have hdata : ['0'] = (decDigits b).reverse.map Nat.digitChar :=
      congrArg String.data h
    have hrev : (decDigits b).reverse = [0] := by
      refine map_digitChar_inj ((decDigits b).reverse) [0]
        (fun x hx => decDigits_lt_ten _ _ x (List.mem_reverse.1 hx))
        (fun x hx => by rcases List.mem_singleton.1 hx with rfl; omega) ?_
      exact hdata.symm.trans (by decide)
    have hdig : decDigits b = [0] := by
      have := congrArg List.reverse hrev
      simpa using this
    have hb0 : b = 0 := by
      have := decVal_decDigits b
      rw [hdig] at this
      simpa [decVal] using this.symm
    exact hb hb0
  intro a b h
  by_cases ha : a = 0 <;> by_cases hb : b = 0
  · rw [ha, hb]
  · exfalso
    rw [ha] at h
    simp only [decRepr, if_pos rfl, if_neg hb] at h
    exact key b hb h
  · exfalso
    rw [hb] at h
    simp only [decRepr, if_pos rfl, if_neg ha] at h
    exact key a ha h.symm
  · simp only [decRepr, if_neg ha, if_neg hb] at h
    have hdata := congrArg String.data h
    have hrev : (decDigits a).reverse = (decDigits b).reverse := by
      refine map_digitChar_inj _ _ ?_ ?_ hdata
      · intro x hx; exact decDigits_lt_ten _ _ x (List.mem_reverse.1 hx)
      · intro x hx; exact decDigits_lt_ten _ _ x (List.mem_reverse.1 hx)
    have hdig : decDigits a = decDigits b := by
      have := congrArg List.reverse hrev
      simpa using this
    have := decVal_decDigits a
    rw [hdig, decVal_decDigits b] at this
    exact this.symm

end PyNum

namespace PyStr

/-- Python whitespace as tested by `str.strip()` and `str.isspace()`:
the characters whose Unicode database entry marks them as whitespace —
tab through carriage return (U+0009–U+000D), the information separators
U+001C–U+001F, space, next line U+0085, no-break space U+00A0, ogham space
U+1680, the general punctuation spaces U+2000–U+200A, line and paragraph
separators U+2028/U+2029, narrow no-break space U+202F, medium mathematical
space U+205F and ideographic space U+3000. -/
def isPyWs (c : Char) : Bool :=
  decide ((9 ≤ c.toNat ∧ c.toNat ≤ 13) ∨ (28 ≤ c.toNat ∧ c.toNat ≤ 31) ∨
    c.toNat = 32 ∨ c.toNat = 133 ∨ c.toNat = 160 ∨ c.toNat = 0x1680 ∨
    (0x2000 ≤ c.toNat ∧ c.toNat ≤ 0x200A) ∨ c.toNat = 0x2028 ∨
    c.toNat = 0x2029 ∨ c.toNat = 0x202F ∨ c.toNat = 0x205F ∨
    c.toNat = 0x3000)

/-- Python `str.strip()`: drop leading and trailing Python whitespace. -/
def stripL (l : List Char) : List Char :=
  ((l.dropWhile isPyWs).reverse.dropWhile isPyWs).reverse

end PyStr

/-- A dynamically-typed Python scalar as it appears in vendor count fields:
either an integer or a string. -/
inductive PyVal where
  | int (n : Int)
  | str (s : String)
deriving DecidableEq

/-- Truthiness-based cap test shared by both API loops:
`if max_comments and len(comments) >= max_comments` — a cap of `0` is falsy
in Python and therefore means "no cap", exactly like `None`. -/
def capReached (maxComments : Option Nat) (len : Nat) : Bool :=
  match maxComments with
  | none => false
  | some m => decide (m ≠ 0) && decide (m ≤ len)

/-- Python truthiness `or` chain step for optional strings: an absent key or
an empty string falls through to the default. -/
def pyOrS (v : Option String) (d : String) : String :=
  match v with
  | none => d
  | some s => if s = "" then d else s

/-- Value of an ASCII decimal digit, `none` on any other character. -/
def digitVal? (c : Char) : Option Nat :=
  if '0' ≤ c ∧ c ≤ '9' then some (c.toNat - 48) else none

/-- Decimal accumulator over the tail of a numeral after its first digit:
CPython's int-from-string grammar allows a single underscore strictly
between two digits, so an underscore must be followed by a digit and must
not end the string. -/
def decDigitsU : List Char → Nat → Option Nat
  | [], acc => some acc
  | '_' :: c :: t, acc =>
    match digitVal? c with
    | some d => decDigitsU t (acc * 10 + d)
    | none => none
  | ['_'], _ => none
  | c :: t, acc =>
    match digitVal? c with
    | some d => decDigitsU t (acc * 10 + d)
    | none => none

/-- Pydantic's lax coercion of a string into an `int` field, as CPython's
`int(str)`: surrounding Python whitespace is stripped, then an optional
sign, then decimal digits with single underscores allowed between digits;
`none` is a `ValidationError`. -/
def pyIntOfStr? (s : String) : Option Int :=
  match PyStr.stripL s.data with
  | [] => none
  | '-' :: t =>
    match t with
    | [] => none
    | c :: t' =>
      match digitVal? c with
      | some d => (decDigitsU t' d).map fun n => -(n : Int)
      | none => none
  | '+' :: t =>
    match t with
    | [] => none
    | c :: t' =>
      match digitVal? c with
      | some d => (decDigitsU t' d).map fun n => (n : Int)
      | none => none
  | c :: t =>
    match digitVal? c with
    | some d => (decDigitsU t d).map fun n => (n : Int)
    | none => none

namespace DouyinAPI

/-- Vendor user record as read by `_parse_comments` (absent keys are
`none`).  Vendor `uid`/`id` values are taken as strings; the source wraps
them in `str(...)`, which is the identity on strings. -/
structure RawUser where
  nickname : Option String := none
  unique_id : Option String := none
  uid : Option String := none
  id : Option String := none
deriving DecidableEq

/-- Vendor comment record as read by `_parse_comments`. -/
structure RawComment where
  text : Option String := none
  comment_text : Option String := none
  cid : Option String := none
  user : Option RawUser := none
  digg_count : Option PyVal := none
  like_count : Option PyVal := none
deriving DecidableEq

/-- Normalised comment produced by `_parse_comments`.  The source also
stores `timestamp: datetime.now().isoformat()`, an ambient-clock value with
no bearing on any claim; it is omitted from the model. -/
structure DComment where
  comment_id : String
  video_id : String
  text : String
  username : String
  likes : PyVal
  user_id : String
deriving DecidableEq

/-- One iteration of the record loop of `_parse_comments`: the `or`-chains
are Python truthiness chains, `get` with a default is `Option.getD`, records
with falsy text are skipped (`continue`), and the synthesized id is
`f"{video_id}_{idx}"` with `idx` the `enumerate` index. -/
def parseOne (videoId : String) (idx : Nat) (c : RawComment) : Option DComment :=
  let text := pyOrS c.text (pyOrS c.comment_text "")
  if text = "" then none
  else
    let u := c.user.getD {}
    some
      { comment_id := c.cid.getD (videoId ++ "_" ++ PyNum.decRepr idx)
        video_id := videoId
        text := text
        username := pyOrS u.nickname (pyOrS u.unique_id (u.uid.getD ""))
        likes := c.digg_count.getD (c.like_count.getD (.int 0))
        user_id := u.uid.getD (u.id.getD "") }

/-- Model of `DouyinAPIScraper._parse_comments`. -/
def parseComments (commentsList : List RawComment) (videoId : String) :
    List DComment :=
  commentsList.enum.filterMap fun p => parseOne videoId p.1 p.2

/-- JSON body of a comment-listing response; `none` fields model absent
keys.  `comments` and `data_comments` (for `data["data"]["comments"]`) only
matter to the alternative-endpoint fallback. -/
structure Body where
  aweme_comments : Option (List RawComment) := none
  comments : Option (List RawComment) := none
  data_comments : Option (List RawComment) := none
  cursor : Option String := none
deriving DecidableEq

/-- One vendor HTTP response: a timeout (`httpx.TimeoutException`), some
other transport exception, or a status code with an optional parsed JSON
body (`none` body = `json.JSONDecodeError`). -/
inductive Resp where
  | timeout
  | exn
  | ok (status : Nat) (body : Option Body)
deriving DecidableEq

/-- The hard page ceiling `max_pages = 50` of `DouyinAPIScraper.scrape`. -/
def maxPages : Nat := 50

/-- Shape fallback of `_try_alternative_api`: key presence (not truthiness)
decides which comment list field is used. -/
def altShape (b : Body) : Option (List RawComment) :=
  match b.comments with
  | some l => some l
  | none =>
    match b.aweme_comments with
    | some l => some l
    | none => b.data_comments

/-- One endpoint attempt inside `_try_alternative_api`: `none` means the
`for` loop continues to the next endpoint; `some parsed` means the loop
broke after extending with the parsed page. -/
def altTryOne (videoId : String) : Resp → Option (List DComment)
  | .timeout => none
  | .exn => none
  | .ok status body =>
    if status = 200 then
      match body with
      | none => none
      | some b =>
        match altShape b with
        | none => none
        | some raws =>
          if raws.isEmpty then none else some (parseComments raws videoId)
    else none

/-- Model of `_try_alternative_api`: two alternative endpoints tried in order, each
consuming one response; returns the accumulated comments (possibly `[]`, in
which case the source reports failure) and the next request index. -/
def tryAlternative (vendor : Nat → Resp) (videoId : String) (req : Nat) :
    List DComment × Nat :=
  match altTryOne videoId (vendor req) with
  | some parsed => (parsed, req + 1)
  | none =>
    match altTryOne videoId (vendor (req + 1)) with
    | some parsed => (parsed, req + 2)
    | none => ([], req + 2)

/-- Result of a `scrape` call: the accumulated comment list, the final
`page_count`, the number of vendor requests issued, whether the
alternative-endpoint result was returned, and the `success` flag of the
result dictionary. -/
structure Run where
  comments : List DComment
  pagesLoaded : Nat
  requests : Nat
  viaAlt : Bool
  success : Bool
deriving DecidableEq

def mkRun (acc : List DComment) (pc req : Nat) : Run :=
  { comments := acc, pagesLoaded := pc, requests := req, viaAlt := false,
    success := decide (0 < acc.length) }

/-- The `while page_count < max_pages` pagination loop of
`DouyinAPIScraper.scrape`.  `rem = max_pages - page_count` is the loop
variable; `vendor` yields the response to the `req`-th HTTP request (the
pre-loop cookie fetch is a best-effort page load whose failures are
swallowed and which touches no loop state; it is not modelled).  Every
`break` of the source is a `mkRun`; the alternative-endpoint fallback runs
only on a non-200 status on the first page. -/
def scrapeLoop (vendor : Nat → Resp) (maxComments : Option Nat)
    (videoId : String) : Nat → List DComment → Nat → Nat → Run
  | 0, acc, pc, req => mkRun acc pc req
  | rem + 1, acc, pc, req =>
    if capReached maxComments acc.length then mkRun acc pc req
    else
      match vendor req with
      | .timeout => mkRun acc pc (req + 1)
      | .exn => mkRun acc pc (req + 1)
      | .ok status body =>
        if status ≠ 200 then
          if pc = 0 then
            if (tryAlternative vendor videoId (req + 1)).1.isEmpty then
              mkRun acc pc (tryAlternative vendor videoId (req + 1)).2
            else
              { comments := (tryAlternative vendor videoId (req + 1)).1,
                pagesLoaded := pc,
                requests := (tryAlternative vendor videoId (req + 1)).2,
                viaAlt := true, success := true }
          else mkRun acc pc (req + 1)
        else
          match body with
          | none => mkRun acc pc (req + 1)
          | some data =>
            if (data.aweme_comments.getD []).isEmpty then mkRun acc pc (req + 1)
            else
              if data.cursor.getD "" = "" then
                mkRun (acc ++ parseComments (data.aweme_comments.getD []) videoId)
                  pc (req + 1)
              else
                scrapeLoop vendor maxComments videoId rem
                  (acc ++ parseComments (data.aweme_comments.getD []) videoId)
                  (pc + 1) (req + 1)

/-- Model of `DouyinAPIScraper.scrape`: resolve the video id (aborting with a failure
result on the sentinel) and run the pagination loop. -/
def scrape (url : String) (vendor : Nat → Resp) (maxComments : Option Nat) :
    Run :=
  let videoId := extractVideoId url
  if videoId = "" then
    { comments := [], pagesLoaded := 0, requests := 0, viaAlt := false,
      success := false }
  else scrapeLoop vendor maxComments videoId maxPages [] 0 0

/-- The ways `douyin_api.py:main` can finish: usage message (too few
arguments, returns `None`, i.e. exit code 0), a completed scrape,
`KeyboardInterrupt`, or any other exception. -/
inductive MainOutcome where
  | usage
  | result (r : Run)
  | interrupted
  | raised
deriving DecidableEq

/-- Exit-code logic of `douyin_api.py:main` (plus `sys.exit` at module
level): 0 on `result["success"]`, 1 otherwise, 130 on interrupt, 1 on any
other exception, 0 on the usage path (`sys.exit(None)`). -/
def mainExitCode : MainOutcome → Int
  | .usage => 0
  | .result r => if r.success then 0 else 1
  | .interrupted => 130
  | .raised => 1

end DouyinAPI

namespace TikTokAPI

/-- The `user.avatar_thumb` sub-object; `url_list` may be present (possibly
empty) or absent. -/
structure Avatar where
  url_list : Option (List String) := none
deriving DecidableEq

/-- Vendor user record as read by `_parse_comment`. -/
structure RawUser where
  unique_id : Option String := none
  nickname : Option String := none
  uid : Option String := none
  avatar_thumb : Option Avatar := none
deriving DecidableEq

/-- Vendor comment record as read by `_parse_comment`. -/
structure RawComment where
  cid : Option String := none
  text : Option String := none
  user : Option RawUser := none
  digg_count : Option PyVal := none
  reply_comment_total : Option PyVal := none
  reply_to_reply_id : Option String := none
  create_time : Option Int := none
  is_pinned : Option Bool := none
deriving DecidableEq

/-- The pydantic `CommentAuthor` model. -/
structure Author where
  username : String
  display_name : Option String := none
  avatar_url : Option String := none
  user_id : String
deriving DecidableEq

/-- The pydantic `Comment` model.  Timestamps are POSIX seconds (`Int`);
the optional `sentiment` field is never set by any scraper and is omitted. -/
structure Comment where
  comment_id : String
  video_id : String
  text : String
  author : Author
  like_count : Int
  reply_count : Int
  parent_comment_id : Option String := none
  created_at : Int
  is_pinned : Bool
deriving DecidableEq

/-- Exceptions `_parse_comment` can raise: the unguarded `[0]` on
`url_list` (`IndexError`) and a pydantic `ValidationError` on a count field
that cannot be coerced to `int`. -/
inductive PyErr where
  | indexError
  | validationError
deriving DecidableEq

/-- Pydantic lax coercion of a dynamic value into an `int` field: integers
pass through, decimal strings are parsed, anything else fails validation. -/
def pyCoerceInt : PyVal → Except PyErr Int
  | .int n => .ok n
  | .str s =>
    match pyIntOfStr? s with
    | some n => .ok n
    | none => .error .validationError

/-- Model of `TikTokAPIScraper._parse_comment`.  `now` models `time.time()`, the
default for an absent `create_time`.  The `CommentAuthor` is built first
(as in the source), so the `IndexError` from
`data.get("avatar_thumb", {}).get("url_list", [""])[0]` fires before any
`Comment` field validation. -/
def parseComment (now : Int) (data : RawComment) (videoId : String) :
    Except PyErr Comment :=
  let authorData := data.user.getD {}
  let urlList : List String :=
    match authorData.avatar_thumb with
    | none => [""]
    | some av => av.url_list.getD [""]
  match urlList with
  | [] => .error .indexError
  | avatarUrl :: _ =>
    match pyCoerceInt (data.digg_count.getD (.int 0)) with
    | .error e => .error e
    | .ok likeCount =>
      match pyCoerceInt (data.reply_comment_total.getD (.int 0)) with
      | .error e => .error e
      | .ok replyCount =>
        .ok
          { comment_id := data.cid.getD ""
            video_id := videoId
            text := data.text.getD ""
            author :=
              { username := authorData.unique_id.getD "anonymous"
                display_name := authorData.nickname
                avatar_url := some avatarUrl
                user_id := authorData.uid.getD "" }
            like_count := likeCount
            reply_count := replyCount
            parent_comment_id := data.reply_to_reply_id
            created_at := data.create_time.getD now
            is_pinned := data.is_pinned.getD false }

/-- JSON body of a TikTok comment-listing response. -/
structure Body where
  comments : Option (List RawComment) := none
  cursor : Option String := none
  has_more : Option Bool := none
deriving DecidableEq

/-- One vendor HTTP response (any exception, transport or otherwise, is
caught by the single generic `except` of the loop; `none` body =
`json.JSONDecodeError`). -/
inductive Resp where
  | exn
  | ok (status : Nat) (body : Option Body)
deriving DecidableEq

/-- Outcome of the `for comment_data in data["comments"]` append loop:
either every record parsed (`ok`) or a record raised mid-page (`err`),
keeping the records already appended. -/
inductive PageFold where
  | ok (comments : List Comment)
  | err (comments : List Comment)
deriving DecidableEq

def parsePage (now : Int) (videoId : String) :
    List RawComment → List Comment → PageFold
  | [], acc => .ok acc
  | r :: rs, acc =>
    match parseComment now r videoId with
    | .ok c => parsePage now videoId rs (acc ++ [c])
    | .error _ => .err acc

/-- Result of the TikTok API pagination loop: `finished = false` means the
`while True` loop was still running when the observation fuel ran out — the
source loop has no page ceiling, so this is how unbounded runs surface. -/
structure Run where
  comments : List Comment
  requests : Nat
  finished : Bool
deriving DecidableEq

/-- The `while True` pagination loop of
`TikTokAPIScraper.scrape_video_comments`.  Unlike the Douyin variant the
source has no page ceiling, so the model is fuel-indexed: each fuel step is
one loop iteration. -/
def scrapeLoop (vendor : Nat → Resp) (maxComments : Option Nat)
    (videoId : String) (now : Int) : Nat → List Comment → Nat → Run
  | 0, acc, req => ⟨acc, req, false⟩
  | fuel + 1, acc, req =>
    if capReached maxComments acc.length then ⟨acc, req, true⟩
    else
      match vendor req with
      | .exn => ⟨acc, req + 1, true⟩
      | .ok status body =>
        if status ≠ 200 then ⟨acc, req + 1, true⟩
        else
          match body with
          | none => ⟨acc, req + 1, true⟩
          | some data =>
            if (data.comments.getD []).isEmpty then ⟨acc, req + 1, true⟩
            else
              match parsePage now videoId (data.comments.getD []) acc with
              | .err acc' => ⟨acc', req + 1, true⟩
              | .ok acc' =>
                if data.cursor.getD "" = "" || data.has_more.getD false = false
                then ⟨acc', req + 1, true⟩
                else scrapeLoop vendor maxComments videoId now fuel acc' (req + 1)

/-- Model of `TikTokAPIScraper.scrape_video_comments`. -/
def scrape (url : String) (vendor : Nat → Resp) (maxComments : Option Nat)
    (now : Int) (fuel : Nat) : Run :=
  scrapeLoop vendor maxComments (extractVideoId url) now fuel [] 0

end TikTokAPI

namespace TikTokBrowser

/-- One heuristically extracted DOM record, as returned by the
`page.evaluate` script of `TikTokScraper._extract_comments` (`likes` is
already an integer there: `parseInt(...) || 0`). -/
structure DomRaw where
  text : Option String := none
  author : Option String := none
  likes : Option Int := none
deriving DecidableEq

/-- The synthesized id `f"{video_id}_comment_{n}"`. -/
def mkCommentId (videoId : String) (n : Nat) : String :=
  videoId ++ "_comment_" ++ PyNum.decRepr n

/-- The `Comment` built for the candidate at `enumerate` index `idx`. -/
def mkDomComment (h : String → Int) (videoId : String) (idOffset : Nat)
    (idx : Nat) (d : DomRaw) (now : Int) : TikTokAPI.Comment :=
  { comment_id := mkCommentId videoId (idOffset + idx)
    video_id := videoId
    text := d.text.getD ""
    author :=
      { username := d.author.getD "anonymous"
        display_name := none
        avatar_url := none
        user_id :=
          "user_" ++ PyNum.decRepr ((h (d.author.getD "") % 1000000).toNat) }
    like_count := d.likes.getD 0
    reply_count := 0
    parent_comment_id := none
    created_at := now
    is_pinned := false }

/-- The `for idx, data in enumerate(comment_data)` loop. -/
def extractGo (h : String → Int) (videoId : String)
    (existing : List TikTokAPI.Comment) (now : Int) :
    Nat → List DomRaw → List TikTokAPI.Comment
  | _, [] => []
  | idx, d :: rest =>
    if existing.any fun c =>
        c.comment_id = mkCommentId videoId (existing.length + idx) then
      extractGo h videoId existing now (idx + 1) rest
    else
      mkDomComment h videoId existing.length idx d now ::
        extractGo h videoId existing now (idx + 1) rest

/-- Model of `TikTokScraper._extract_comments` (the pure part after `page.evaluate`):
synthesizes `comment_id = f"{video_id}_comment_{len(existing_comments) + idx}"`,
skips a candidate whose id already occurs in `existing_comments`, and keeps
identical texts — there is no content-based dedup here.  `h` models
Python's `hash` (used only for the synthetic `user_id`), `now` models
`datetime.now()`. -/
def extractComments (h : String → Int) (videoId : String)
    (existing : List TikTokAPI.Comment) (raws : List DomRaw) (now : Int) :
    List TikTokAPI.Comment :=
  extractGo h videoId existing now 0 raws

/-- The accumulation of the browser scrape loop: each scroll round extends
`comments` with the round's extraction against the current accumulation. -/
def sessionComments (h : String → Int) (videoId : String) (now : Int)
    (rounds : List (List DomRaw)) : List TikTokAPI.Comment :=
  rounds.foldl (fun acc round => acc ++ extractComments h videoId acc round now) []

end TikTokBrowser

namespace CLI

/-- How a `cli.py:main` invocation ends: `scrape_and_analyze` completed
(carrying the scraped comments) or raised. -/
inductive Outcome where
  | completed (comments : List TikTokAPI.Comment)
  | raised
deriving DecidableEq

/-- Exit-code logic of `cli.py:main`: `exit(1)` in the `except` branch,
otherwise the function returns normally and the process exits 0 — the
comment count is never consulted. -/
def mainExitCode : Outcome → Int
  | .completed _ => 0
  | .raised => 1

end CLI

namespace DouyinPro

/-- One candidate record produced by the `page.evaluate` script of
`_extract_comments_advanced`. -/
structure ProRaw where
  text : Option String := none
  likes : Option Int := none
  username : Option String := none
deriving DecidableEq

/-- Comment dictionary appended by `_extract_comments_advanced`
(`timestamp: datetime.now().isoformat()` is ambient time, omitted). -/
structure ProComment where
  text : String
  likes : Int
  username : String
deriving DecidableEq

/-- The dedup loop of `DouyinScraperPro._extract_comments_advanced`:
strip the text, drop it when falsy or shorter than 2 characters, fingerprint
it with `hash` (the explicit parameter `h`), skip already-seen fingerprints,
otherwise record the fingerprint and append.  `acc` is the accumulated
comment list, `seen` the `self.seen_hashes` set (a list here; only
membership is used). -/
def stripText (r : ProRaw) : String := ⟨stripL (r.text.getD "").data⟩

/-- The comment dictionary appended for a retained candidate. -/
def mkProComment (r : ProRaw) : ProComment :=
  { text := stripText r, likes := r.likes.getD 0,
    username := r.username.getD "anonymous" }

def extractRound (h : String → Int) :
    List ProRaw → List ProComment → List Int → List ProComment × List Int
  | [], acc, seen => (acc, seen)
  | r :: rs, acc, seen =>
    if stripText r = "" ∨ (stripText r).length < 2 then extractRound h rs acc seen
    else if seen.contains (h (stripText r)) then extractRound h rs acc seen
    else extractRound h rs (acc ++ [mkProComment r]) (h (stripText r) :: seen)

/-- Whole-session accumulation of the scroll loop of `DouyinScraperPro.scrape`:
`self.comments` and `self.seen_hashes` persist across scroll rounds. -/
def session (h : String → Int) (rounds : List (List ProRaw)) :
    List ProComment × List Int :=
  rounds.foldl (fun st round => extractRound h round st.1 st.2) ([], [])

end DouyinPro

namespace LLM

/-- The `Sentiment` enum of `models/comment.py`. -/
inductive Sentiment where
  | positive
  | negative
  | neutral
  | suggestion
  | question
deriving DecidableEq

/-- The `sentiment_map` lookup of `_parse_sentiment_response`; an unknown
label maps to `none` (Python `dict.get` returning `None`). -/
def sentimentMap (s : String) : Option Sentiment :=
  if s = "positive" then some .positive
  else if s = "negative" then some .negative
  else if s = "neutral" then some .neutral
  else if s = "suggestion" then some .suggestion
  else if s = "question" then some .question
  else none

/-- Abstraction of a parsed JSON object as `_parse_sentiment_response` uses
it: the string under the `"sentiment"` key, if any, plus the remaining
key/value payload, carried opaquely. -/
structure JsonObj where
  sentiment : Option String := none
  rest : List (String × String) := []
deriving DecidableEq

/-- Result dictionary of `_parse_sentiment_response`: the success branch
returns the parsed object with its `sentiment` entry replaced by the mapped
enum (possibly `None`); the failure branch returns the fixed degraded
dictionary.  `confidence` is the exact rational `0.0`. -/
inductive ParseOut where
  | parsed (sentiment : Option Sentiment) (rest : List (String × String))
  | degraded (sentiment : Sentiment) (confidence : ℚ)
      (keyPoints : List String) (summary : String) (error : String)
deriving DecidableEq

/-- JSON insignificant whitespace (RFC 8259): space, tab, line feed and
carriage return.  `json.loads` ignores these around a document, a fact the
fence-equivalence statement below assumes of its abstract `jloads`. -/
def isJsonWs (c : Char) : Bool :=
  decide (c = ' ' ∨ c = '\t' ∨ c = '\n' ∨ c = '\r')

/-- Python slice `s[a:-b]`. -/
def pySliceDrop (s : String) (a b : Nat) : String :=
  ⟨(s.data.drop a).take (s.data.length - a - b)⟩

/-- The code-fence stripping of `_parse_sentiment_response`
(`[7:-3]` after ```` ```json ````, `[3:-3]` after ```` ``` ````). -/
def stripFences (t : String) : String :=
  if isPre "```json".data t.data then pySliceDrop t 7 3
  else if isPre "```".data t.data then pySliceDrop t 3 3
  else t

/-- Python slice `s[:200]`. -/
def pyTake200 (s : String) : String := ⟨s.data.take 200⟩

/-- Model of `LLMClient._parse_sentiment_response`.  `jloads` abstracts
`json.loads` restricted to the object shape the parser consumes; `none`
models `json.JSONDecodeError`. -/
def parseSentimentResponse (jloads : String → Option JsonObj)
    (responseText : String) : ParseOut :=
  let t := stripFences ⟨stripL responseText.data⟩
  match jloads t with
  | some data => .parsed (sentimentMap (data.sentiment.getD "neutral")) data.rest
  | none =>
    .degraded .neutral 0 [] (pyTake200 t) "Failed to parse JSON response"

end LLM

/-! ## Concrete scenario data used by the claim theorems below -/

/-- Two-page Douyin mock: page 1 = two records + cursor `"c1"`, page 2 = one
record + empty cursor, further pages available but (per the claims) never to
be requested. -/
def douyinTwoPageVendor : Nat → DouyinAPI.Resp := fun req =>
  if req = 0 then
    .ok 200 (some { aweme_comments := some [{ text := some "t1" }, { text := some "t2" }],
                    cursor := some "c1" })
  else if req = 1 then
    .ok 200 (some { aweme_comments := some [{ text := some "t3" }],
                    cursor := some "" })
  else
    .ok 200 (some { aweme_comments := some [{ text := some "t4" }],
                    cursor := some "c9" })

/-- The same two-page mock for the TikTok API variant (whose loop also
consults `has_more`). -/
def tiktokTwoPageVendor : Nat → TikTokAPI.Resp := fun req =>
  if req = 0 then
    .ok 200 (some { comments := some [{ cid := some "a1", text := some "t1" },
                                      { cid := some "a2", text := some "t2" }],
                    cursor := some "c1", has_more := some true })
  else if req = 1 then
    .ok 200 (some { comments := some [{ cid := some "a3", text := some "t3" }],
                    cursor := some "", has_more := some false })
  else
    .ok 200 (some { comments := some [{ cid := some "a4", text := some "t4" }],
                    cursor := some "c9", has_more := some true })

/-- A perfectly cooperative TikTok vendor: every page carries one record, a
non-empty cursor and `has_more = true`, forever. -/
def tiktokCoopVendor : Nat → TikTokAPI.Resp := fun _ =>
  .ok 200 (some { comments := some [{ cid := some "x", text := some "t" }],
                  cursor := some "c", has_more := some true })

/-- Douyin vendor for the cap-overshoot counterexample: a single page
carrying two records, then no further pages. -/
def douyinWidePageVendor : Nat → DouyinAPI.Resp := fun _ =>
  .ok 200 (some { aweme_comments := some [{ text := some "a" }, { text := some "b" }],
                  cursor := some "" })

/-- Douyin vendor for the id-collision counterexample: two pages, each with
one `cid`-less record. -/
def douyinNoCidVendor : Nat → DouyinAPI.Resp := fun req =>
  if req = 0 then
    .ok 200 (some { aweme_comments := some [{ text := some "a" }], cursor := some "c1" })
  else
    .ok 200 (some { aweme_comments := some [{ text := some "b" }], cursor := some "" })

/-- TikTok vendor record whose `user.avatar_thumb` is present but carries an
empty `url_list`. -/
def tiktokEmptyAvatarRecord : TikTokAPI.RawComment :=
  { cid := some "c", text := some "hello",
    user := some { avatar_thumb := some { url_list := some [] } } }

/-- A `json.loads` model that fails on every input (all inputs fed to it in
the statements below are not valid JSON). -/
def alwaysFailLoads : String → Option LLM.JsonObj := fun _ => none

/-- A `json.loads` model that succeeds (with the empty object shape) on
every input; trivially insensitive to surrounding whitespace. -/
def constObjLoads : String → Option LLM.JsonObj := fun _ => some {}

/-- Claim C10: `TikTokAPIScraper._parse_comment` hits the unguarded `[0]` on
`user.avatar_thumb.url_list` when that list is present but empty, raising
`IndexError` — parsing a single vendor record is not total over
vendor-shaped inputs.  In the model the raise is the `.error .indexError`
outcome of the embedded parser. -/
theorem claim_C10_parse_comment_index_error :
    TikTokAPI.parseComment 0 tiktokEmptyAvatarRecord "v" =
      .error .indexError := rfl

/-- Claim C5: on the two-page mock (page 1 = two records + cursor `"c1"`,
page 2 = one record + empty cursor) with no cap, both API strategies return
exactly three normalized comments in page order and issue exactly two
requests, never a third (the vendors above have a third page available at
request index 2, and it is not fetched). -/
theorem claim_C5_two_page_scenario :
    ((DouyinAPI.scrape "https://www.douyin.com/video/99" douyinTwoPageVendor
        none).comments.map (fun c => c.text) = ["t1", "t2", "t3"] ∧
      (DouyinAPI.scrape "https://www.douyin.com/video/99" douyinTwoPageVendor
        none).requests = 2) ∧
    ((TikTokAPI.scrape "https://www.tiktok.com/@u/video/5" tiktokTwoPageVendor
        none 0 10).comments.map (fun c => c.text) = ["t1", "t2", "t3"] ∧
      (TikTokAPI.scrape "https://www.tiktok.com/@u/video/5" tiktokTwoPageVendor
        none 0 10).requests = 2 ∧
      (TikTokAPI.scrape "https://www.tiktok.com/@u/video/5" tiktokTwoPageVendor
        none 0 10).finished = true) := by
  decide

/-- Counterexample to claim C1 as stated: with a requested cap of 1 comment
the Douyin API strategy returns 2 comments — the cap is only checked before
a page is fetched, and a whole page is appended at once, so the accumulated
list can exceed the cap. -/
theorem claim_C1_cap_counterexample :
    (DouyinAPI.scrape "https://www.douyin.com/video/7" douyinWidePageVendor
      (some 1)).comments.length = 2 ∧ ¬ (2 : Nat) ≤ 1 := by
  decide

/-- Counterexample to claim C2 as stated: the TikTok API pagination loop
(`while True`) has no hard request ceiling.  Against the cooperative vendor
it has issued 51 page requests (more than the Douyin variant's hard ceiling
of 50) after 51 iterations and is still running (`finished = false`). -/
theorem claim_C2_ceiling_counterexample :
    (TikTokAPI.scrapeLoop tiktokCoopVendor none "v" 0 51 [] 0).requests = 51 ∧
    (TikTokAPI.scrapeLoop tiktokCoopVendor none "v" 0 51 [] 0).finished = false := by
  decide

/-- Counterexample to claim C3 as stated: the TikTok rendered-page extractor
(`TikTokScraper._extract_comments`, one of the claim's two cited
accumulation sites) retains two comments with identical text in the
accumulated list — its only dedup is on the synthesized `comment_id`, which
never collides, so identical fingerprinted texts are not deduplicated
there. -/
theorem claim_C3_dedup_counterexample :
    ((TikTokBrowser.sessionComments (fun _ => 0) "v" 0
        [[{ text := some "same" }, { text := some "same" }]]).map
      (fun c => c.text)) = ["same", "same"] := by
  decide

/-- Counterexample to claim C8 as stated: the Douyin API strategy restarts
the synthesized-id index at 0 on every page, so two `cid`-less records on
two different pages both get `comment_id = "7_0"` — accumulated ids are not
pairwise distinct. -/
theorem claim_C8_id_counterexample :
    ((DouyinAPI.scrape "https://www.douyin.com/video/7" douyinNoCidVendor
        none).comments.map (fun c => c.comment_id)) = ["7_0", "7_0"] ∧
    ¬ ((DouyinAPI.scrape "https://www.douyin.com/video/7" douyinNoCidVendor
        none).comments.map (fun c => c.comment_id)).Nodup := by
  decide

/-- Counterexample to claim C9 as stated: the package CLI entry point
(`cli.py:main`) exits 0 whenever `scrape_and_analyze` completes without an
exception — also when zero comments were captured, where the claim demands a
non-zero exit code. -/
theorem claim_C9_exit_counterexample :
    CLI.mainExitCode (.completed []) = 0 := rfl

/-- Counterexample to claim C7 as stated: on the fenced non-JSON body
```` ```jsonnotjson``` ````, the degraded summary is the fence-stripped text
`"notjson"`, not the raw text truncated to 200 characters. -/
theorem claim_C7_summary_counterexample :
    LLM.parseSentimentResponse alwaysFailLoads "```jsonnotjson```" =
      .degraded .neutral 0 [] "notjson" "Failed to parse JSON response" ∧
    ("notjson" : String) ≠ LLM.pyTake200 "```jsonnotjson```" := by
  decide

namespace DouyinAPI

theorem scrapeLoop_succ (vendor : Nat → Resp) (mc : Option Nat) (vid : String)
    (n : Nat) (acc : List DComment) (pc req : Nat) :
    scrapeLoop vendor mc vid (n + 1) acc pc req =
      (if capReached mc acc.length then mkRun acc pc req
      else
        match vendor req with
        | .timeout => mkRun acc pc (req + 1)
        | .exn => mkRun acc pc (req + 1)
        | .ok status body =>
          if status ≠ 200 then
            if pc = 0 then
              if (tryAlternative vendor vid (req + 1)).1.isEmpty then
                mkRun acc pc (tryAlternative vendor vid (req + 1)).2
              else
                { comments := (tryAlternative vendor vid (req + 1)).1,
                  pagesLoaded := pc,
                  requests := (tryAlternative vendor vid (req + 1)).2,
                  viaAlt := true, success := true }
            else mkRun acc pc (req + 1)
          else
            match body with
            | none => mkRun acc pc (req + 1)
            | some data =>
              if (data.aweme_comments.getD []).isEmpty then mkRun acc pc (req + 1)
              else
                if data.cursor.getD "" = "" then
                  mkRun (acc ++ parseComments (data.aweme_comments.getD []) vid)
                    pc (req + 1)
                else
                  scrapeLoop vendor mc vid n
                    (acc ++ parseComments (data.aweme_comments.getD []) vid)
                    (pc + 1) (req + 1)) := rfl

theorem scrape_eq (url : String) (vendor : Nat → Resp) (mc : Option Nat) :
    scrape url vendor mc =
      if extractVideoId url = "" then
        { comments := [], pagesLoaded := 0, requests := 0, viaAlt := false,
          success := false }
      else scrapeLoop vendor mc (extractVideoId url) maxPages [] 0 0 := rfl

theorem scrapeLoop_success_iff (vendor : Nat → Resp) (mc : Option Nat)
    (vid : String) :
    ∀ rem acc pc req,
      ((scrapeLoop vendor mc vid rem acc pc req).success = true ↔
        0 < (scrapeLoop vendor mc vid rem acc pc req).comments.length) := by
  intro rem
  induction rem with
  | zero =>
    intro acc pc req
    simp [scrapeLoop, mkRun]
  | succ n ih =>
    intro acc pc req
    rw [scrapeLoop_succ]
    split
    · simp [mkRun]
    · split
      · simp [mkRun]
      · simp [mkRun]
      · split
        · split
          · split
            · simp [mkRun]
            · rename_i halt
              simp only [List.isEmpty_iff] at halt
              simp [List.length_pos, halt]
          · simp [mkRun]
        · split
          · simp [mkRun]
          · split
            · simp [mkRun]
            · split
              · simp [mkRun]
              · exact ih _ _ _

end DouyinAPI

/-- Claim C9 (amended): the Douyin entry point (`douyin_api.py:main`) exits
0 exactly when the run captured at least one comment (and 130 / 1 on
interrupt / exception); but the package CLI (`cli.py:main`) exits 0 whenever
the run completes without raising — regardless of the comment count — and 1
only on an exception.  The original claim's "zero comments captured exits
non-zero" holds only for the Douyin entry point. -/
theorem claim_C9_exit_codes_amended :
    (∀ (url : String) (vendor : Nat → DouyinAPI.Resp) (mc : Option Nat),
      DouyinAPI.mainExitCode (.result (DouyinAPI.scrape url vendor mc)) = 0 ↔
        0 < (DouyinAPI.scrape url vendor mc).comments.length) ∧
    (∀ cs : List TikTokAPI.Comment, CLI.mainExitCode (.completed cs) = 0) ∧
    CLI.mainExitCode .raised = 1 ∧
    DouyinAPI.mainExitCode .interrupted = 130 ∧
    DouyinAPI.mainExitCode .raised = 1 := by
  refine ⟨?_, fun _ => rfl, rfl, rfl, rfl⟩
  intro url vendor mc
  rw [DouyinAPI.scrape_eq]
  by_cases hvid : DouyinAPI.extractVideoId url = ""
  · rw [if_pos hvid]
    simp [DouyinAPI.mainExitCode]
  · rw [if_neg hvid]
    have h := DouyinAPI.scrapeLoop_success_iff vendor mc
      (DouyinAPI.extractVideoId url) DouyinAPI.maxPages [] 0 0
    simp only [DouyinAPI.mainExitCode]
    constructor
    · intro h0
      refine h.1 ?_
      cases hsf : (DouyinAPI.scrapeLoop vendor mc (DouyinAPI.extractVideoId url)
          DouyinAPI.maxPages [] 0 0).success with
      | false => rw [if_neg (by simp [hsf])] at h0; exact absurd h0 (by norm_num)
      | true => rfl
    · intro hl
      rw [if_pos (h.2 hl)]

namespace DouyinAPI

theorem tryAlternative_snd_le (vendor : Nat → Resp) (vid : String) (r : Nat) :
    (tryAlternative vendor vid r).2 ≤ r + 2 := by
  rw [tryAlternative]
  cases altTryOne vid (vendor r) with
  | some parsed => simp
  | none =>
    cases altTryOne vid (vendor (r + 1)) with
    | some parsed => simp
    | none => simp

/-- Request-count bound for the Douyin pagination loop: starting from
request index `req` with `rem` loop iterations allowed, at most
`max rem 3` further requests are issued (3 covers a first-page failure
followed by the two alternative-endpoint attempts); from a non-zero
`page_count` the alternative path is unreachable and `rem` bounds it. -/
theorem scrapeLoop_requests_le (vendor : Nat → Resp) (mc : Option Nat)
    (vid : String) :
    ∀ rem acc pc req,
      ((scrapeLoop vendor mc vid rem acc pc req).requests ≤ req + max rem 3) ∧
      (pc ≠ 0 → (scrapeLoop vendor mc vid rem acc pc req).requests ≤ req + rem) := by
  intro rem
  induction rem with
  | zero =>
    intro acc pc req
    exact ⟨Nat.le_add_right _ _, fun _ => Nat.le_add_right _ _⟩
  | succ n ih =>
    intro acc pc req
    have h3 : 3 ≤ max (n + 1) 3 := Nat.le_max_right _ _
    have h1 : n + 1 ≤ max (n + 1) 3 := Nat.le_max_left _ _
    rw [scrapeLoop_succ]
    split
    · exact ⟨by simp only [mkRun]; omega, fun _ => by simp only [mkRun]; omega⟩
    · split
      · exact ⟨by simp only [mkRun]; omega, fun _ => by simp only [mkRun]; omega⟩
      · exact ⟨by simp only [mkRun]; omega, fun _ => by simp only [mkRun]; omega⟩
      · split
        · split
          · have halt := tryAlternative_snd_le vendor vid (req + 1)
            rename_i hpc
            split
            · exact ⟨by simp only [mkRun]; omega, fun hpc0 => absurd hpc hpc0⟩
            · exact ⟨by simp only []; omega, fun hpc0 => absurd hpc hpc0⟩
          · exact ⟨by simp only [mkRun]; omega, fun _ => by simp only [mkRun]; omega⟩
        · split
          · exact ⟨by simp only [mkRun]; omega, fun _ => by simp only [mkRun]; omega⟩
          · split
            · exact ⟨by simp only [mkRun]; omega, fun _ => by simp only [mkRun]; omega⟩
            · split
              · exact ⟨by simp only [mkRun]; omega,
                  fun _ => by simp only [mkRun]; omega⟩
              · exact ⟨le_trans ((ih _ _ _).2 (Nat.succ_ne_zero pc)) (by omega),
                  fun _ => le_trans ((ih _ _ _).2 (Nat.succ_ne_zero pc)) (by omega)⟩

end DouyinAPI

namespace TikTokAPI

theorem scrapeLoopT_succ (vendor : Nat → Resp) (mc : Option Nat) (vid : String)
    (now : Int) (n : Nat) (acc : List Comment) (req : Nat) :
    scrapeLoop vendor mc vid now (n + 1) acc req =
      (if capReached mc acc.length then ⟨acc, req, true⟩
      else
        match vendor req with
        | .exn => ⟨acc, req + 1, true⟩
        | .ok status body =>
          if status ≠ 200 then ⟨acc, req + 1, true⟩
          else
            match body with
            | none => ⟨acc, req + 1, true⟩
            | some data =>
              if (data.comments.getD []).isEmpty then ⟨acc, req + 1, true⟩
              else
                match parsePage now vid (data.comments.getD []) acc with
                | .err acc' => ⟨acc', req + 1, true⟩
                | .ok acc' =>
                  if data.cursor.getD "" = "" || data.has_more.getD false = false
                  then ⟨acc', req + 1, true⟩
                  else scrapeLoop vendor mc vid now n acc' (req + 1)) := rfl

end TikTokAPI

/-- The single comment each cooperative page parses to. -/
def tiktokCoopComment : TikTokAPI.Comment :=
  { comment_id := "x", video_id := "v", text := "t",
    author := { username := "anonymous", display_name := none,
                avatar_url := some "", user_id := "" },
    like_count := 0, reply_count := 0, parent_comment_id := none,
    created_at := 0, is_pinned := false }

/-- Against the cooperative vendor and with no cap, the TikTok API loop is
still running after any number of iterations: the source `while True` has no
hard page ceiling. -/
theorem tiktokCoop_never_finishes :
    ∀ fuel acc req,
      (TikTokAPI.scrapeLoop tiktokCoopVendor none "v" 0 fuel acc req).finished
        = false := by
  intro fuel
  induction fuel with
  | zero => intro acc req; rfl
  | succ n ih =>
    intro acc req
    show (TikTokAPI.scrapeLoop tiktokCoopVendor none "v" 0 n
        (acc ++ [tiktokCoopComment]) (req + 1)).finished = false
    exact ih (acc ++ [tiktokCoopComment]) (req + 1)

/-- Claim C2 (amended): the Douyin API strategy issues at most the hard
ceiling of 50 page requests regardless of the vendor's responses (its model
is structurally terminating, mirroring `while page_count < max_pages`); but
the TikTok API variant has no hard request-count ceiling — against a vendor
whose pages always carry records, a cursor and `has_more = true`, and with no
cap, its `while True` loop never terminates, as the counterexample's 51
requests and this theorem's second conjunct show. -/
theorem claim_C2_hard_ceiling_amended :
    (∀ (url : String) (vendor : Nat → DouyinAPI.Resp) (mc : Option Nat),
      (DouyinAPI.scrape url vendor mc).requests ≤ 50) ∧
    (∀ fuel,
      (TikTokAPI.scrapeLoop tiktokCoopVendor none "v" 0 fuel [] 0).finished
        = false) := by
  constructor
  · intro url vendor mc
    rw [DouyinAPI.scrape_eq]
    by_cases hvid : DouyinAPI.extractVideoId url = ""
    · rw [if_pos hvid]
      exact Nat.zero_le 50
    · rw [if_neg hvid]
      have h := (DouyinAPI.scrapeLoop_requests_le vendor mc
        (DouyinAPI.extractVideoId url) DouyinAPI.maxPages [] 0 0).1
      have hmax : max DouyinAPI.maxPages 3 = 50 := rfl
      rw [hmax] at h
      simpa using h
  · intro fuel
    exact tiktokCoop_never_finishes fuel [] 0

namespace DouyinAPI

/-- Upper bound on the number of raw records any of the comment-list fields
of a response carries. -/
def respLenBound : Resp → Nat
  | .ok _ (some b) =>
    max (b.aweme_comments.getD []).length
      (max (b.comments.getD []).length (b.data_comments.getD []).length)
  | _ => 0

theorem parseComments_length_le (l : List RawComment) (vid : String) :
    (parseComments l vid).length ≤ l.length := by
  rw [parseComments]
  refine le_trans (List.length_filterMap_le _ _) ?_
  rw [List.enum_length]

theorem altTryOne_length_le {k : Nat} (vid : String) (resp : Resp)
    (h : respLenBound resp ≤ k) :
    ∀ l, altTryOne vid resp = some l → l.length ≤ k := by
  intro l
  cases resp with
  | timeout => intro h'; cases h'
  | exn => intro h'; cases h'
  | ok status body =>
    simp only [altTryOne]
    split
    · cases body with
      | none => intro h'; cases h'
      | some b =>
        cases hshape : altShape b with
        | none => intro h'; simp [hshape] at h'
        | some raws =>
          simp only [hshape]
          split
          · intro h'; cases h'
          · intro h'
            have hl : l = parseComments raws vid := by
              cases h'; rfl
            subst hl
            refine le_trans (parseComments_length_le _ _) (le_trans ?_ h)
            rw [respLenBound]
            rw [altShape] at hshape
            rcases hc : b.comments with _ | l0
            · rw [hc] at hshape
              rcases ha : b.aweme_comments with _ | l1
              · rw [ha] at hshape
                simp only at hshape
                rw [hshape]
                exact le_trans (le_max_right _ _) (le_max_right _ _)
              · rw [ha] at hshape
                simp only at hshape
                cases hshape
                exact le_max_left _ _
            · rw [hc] at hshape
              simp only at hshape
              cases hshape
              exact le_trans (le_max_left _ _) (le_max_right _ _)
    · intro h'; cases h'

theorem tryAlternative_fst_le {k : Nat} (vendor : Nat → Resp) (vid : String)
    (hk : ∀ i, respLenBound (vendor i) ≤ k) (r : Nat) :
    (tryAlternative vendor vid r).1.length ≤ k := by
  rw [tryAlternative]
  cases h1 : altTryOne vid (vendor r) with
  | some parsed => exact altTryOne_length_le vid (vendor r) (hk r) parsed h1
  | none =>
    cases h2 : altTryOne vid (vendor (r + 1)) with
    | some parsed => exact altTryOne_length_le vid (vendor (r + 1)) (hk (r + 1)) parsed h2
    | none => exact Nat.zero_le k

/-- Length bound for the Douyin pagination loop under a positive cap `m`:
the accumulation can overshoot the cap by less than one page. -/
theorem scrapeLoop_length_le (vendor : Nat → Resp) (vid : String)
    (m k : Nat) (hm0 : m ≠ 0) (hk : ∀ i, respLenBound (vendor i) ≤ k) :
    ∀ rem acc pc req,
      (scrapeLoop vendor (some m) vid rem acc pc req).comments.length ≤
        max acc.length (m - 1 + k) := by
  intro rem
  induction rem with
  | zero => intro acc pc req; exact le_max_left _ _
  | succ n ih =>
    intro acc pc req
    rw [scrapeLoop_succ]
    split
    · exact le_max_left _ _
    · rename_i hcap
      have hlt : acc.length < m := by
        by_contra hge
        push_neg at hge
        refine hcap ?_
        simp only [capReached, Bool.and_eq_true, decide_eq_true_eq]
        exact ⟨hm0, hge⟩
      split
      · exact le_max_left _ _
      · exact le_max_left _ _
      · rename_i status body heq
        split
        · split
          · split
            · exact le_max_left _ _
            · refine le_trans ?_ (le_max_right _ _)
              refine le_trans (tryAlternative_fst_le vendor vid hk (req + 1)) ?_
              omega
          · exact le_max_left _ _
        · split
          · exact le_max_left _ _
          · rename_i data
            have hpage :
                (parseComments (data.aweme_comments.getD []) vid).length ≤ k := by
              refine le_trans (parseComments_length_le _ _) ?_
              have hkq := hk req
              rw [heq] at hkq
              refine le_trans ?_ hkq
              rw [respLenBound]
              exact le_max_left _ _
            split
            · exact le_max_left _ _
            · split
              · refine le_trans ?_ (le_max_right _ _)
                simp only [mkRun, List.length_append]
                omega
              · refine le_trans (ih _ _ _) ?_
                refine max_le ?_ (le_max_right _ _)
                refine le_trans ?_ (le_max_right _ _)
                rw [List.length_append]
                omega

end DouyinAPI

namespace TikTokAPI

/-- Number of raw records a response page carries. -/
def respLenBound : Resp → Nat
  | .ok _ (some b) => (b.comments.getD []).length
  | _ => 0

/-- The comment list carried by either outcome of the page-append loop. -/
def PageFold.comments : PageFold → List Comment
  | .ok l => l
  | .err l => l

theorem parsePage_length_le (now : Int) (vid : String) :
    ∀ raws acc, (parsePage now vid raws acc).comments.length ≤
      acc.length + raws.length := by
  intro raws
  induction raws with
  | nil => intro acc; simp [parsePage, PageFold.comments]
  | cons r rs ih =>
    intro acc
    rw [parsePage]
    cases parseComment now r vid with
    | ok c =>
      refine le_trans (ih (acc ++ [c])) ?_
      rw [List.length_append]
      simp
      omega
    | error e =>
      simp only [PageFold.comments]
      exact Nat.le_add_right _ _

/-- Length bound for the TikTok API pagination loop under a positive cap. -/
theorem scrapeLoopT_length_le (vendor : Nat → Resp) (vid : String) (now : Int)
    (m k : Nat) (hm0 : m ≠ 0) (hk : ∀ i, respLenBound (vendor i) ≤ k) :
    ∀ fuel acc req,
      (scrapeLoop vendor (some m) vid now fuel acc req).comments.length ≤
        max acc.length (m - 1 + k) := by
  intro fuel
  induction fuel with
  | zero => intro acc req; exact le_max_left _ _
  | succ n ih =>
    intro acc req
    rw [scrapeLoopT_succ]
    split
    · exact le_max_left _ _
    · rename_i hcap
      have hlt : acc.length < m := by
        by_contra hge
        push_neg at hge
        refine hcap ?_
        simp only [capReached, Bool.and_eq_true, decide_eq_true_eq]
        exact ⟨hm0, hge⟩
      split
      · exact le_max_left _ _
      · rename_i status body heq
        split
        · exact le_max_left _ _
        · split
          · exact le_max_left _ _
          · rename_i data
            have hpage : (data.comments.getD []).length ≤ k := by
              have hkq := hk req
              rw [heq] at hkq
              exact le_trans (le_of_eq rfl) hkq
            split
            · exact le_max_left _ _
            · split
              · rename_i acc' hfold
                refine le_trans ?_ (le_max_right _ _)
                have := parsePage_length_le now vid (data.comments.getD []) acc
                rw [hfold] at this
                simp only [PageFold.comments] at this
                show acc'.length ≤ m - 1 + k
                omega
              · rename_i acc' hfold
                split
                · refine le_trans ?_ (le_max_right _ _)
                  have := parsePage_length_le now vid (data.comments.getD []) acc
                  rw [hfold] at this
                  simp only [PageFold.comments] at this
                  show acc'.length ≤ m - 1 + k
                  omega
                · refine le_trans (ih _ _) ?_
                  refine max_le ?_ (le_max_right _ _)
                  refine le_trans ?_ (le_max_right _ _)
                  have := parsePage_length_le now vid (data.comments.getD []) acc
                  rw [hfold] at this
                  simp only [PageFold.comments] at this
                  omega

end TikTokAPI

/-- Claim C1 (amended): neither API strategy truncates to the cap — the cap
is only checked before a page is fetched and whole pages are appended, so
the returned list can exceed the cap (see the counterexample).  What does
hold, for both variants: once the cap is reached no further page is
appended, so with a positive cap `m` and every vendor page carrying at most
`k` records, the accumulated list holds at most `m - 1 + k` comments. -/
theorem claim_C1_cap_overshoot_amended :
    (∀ (url : String) (vendor : Nat → DouyinAPI.Resp) (m k : Nat), 1 ≤ m →
      (∀ i, DouyinAPI.respLenBound (vendor i) ≤ k) →
      (DouyinAPI.scrape url vendor (some m)).comments.length ≤ m - 1 + k) ∧
    (∀ (url : String) (vendor : Nat → TikTokAPI.Resp) (m k : Nat) (now : Int)
        (fuel : Nat), 1 ≤ m →
      (∀ i, TikTokAPI.respLenBound (vendor i) ≤ k) →
      (TikTokAPI.scrape url vendor (some m) now fuel).comments.length ≤
        m - 1 + k) := by
  constructor
  · intro url vendor m k hm hk
    rw [DouyinAPI.scrape_eq]
    by_cases hvid : DouyinAPI.extractVideoId url = ""
    · rw [if_pos hvid]
      exact Nat.zero_le _
    · rw [if_neg hvid]
      have h := DouyinAPI.scrapeLoop_length_le vendor
        (DouyinAPI.extractVideoId url) m k (by omega) hk DouyinAPI.maxPages [] 0 0
      simpa using h
  · intro url vendor m k now fuel hm hk
    have h := TikTokAPI.scrapeLoopT_length_le vendor
      (TikTokAPI.extractVideoId url) now m k (by omega) hk fuel [] 0
    simpa [TikTokAPI.scrape] using h

/-- Witness for the amended C1 at the counterexample's vendor (cap 1, pages
of at most 2 records: at most 2 comments) and at the cooperative TikTok
vendor (cap 1, single-record pages: at most 1 comment). -/
theorem claim_C1_cap_overshoot_amended_witness :
    (DouyinAPI.scrape "https://www.douyin.com/video/7" douyinWidePageVendor
      (some 1)).comments.length ≤ 2 ∧
    (TikTokAPI.scrape "https://www.tiktok.com/@u/video/5" tiktokCoopVendor
      (some 1) 0 51).comments.length ≤ 1 :=
  ⟨claim_C1_cap_overshoot_amended.1 _ _ 1 2 (by decide)
      (fun i => by
        have hi : douyinWidePageVendor i = douyinWidePageVendor 0 := rfl
        rw [hi]; decide),
   claim_C1_cap_overshoot_amended.2 _ _ 1 1 0 51 (by decide)
      (fun i => by
        have hi : tiktokCoopVendor i = tiktokCoopVendor 0 := rfl
        rw [hi]; decide)⟩

namespace PyStr

theorem stripL_eq_self_of_ends {l : List Char} (c d : Char)
    (hhead : l.head? = some c) (hc : isPyWs c = false)
    (hlast : l.getLast? = some d) (hd : isPyWs d = false) :
    stripL l = l := by
  cases l with
  | nil => cases hhead
  | cons a t =>
    have ha : a = c := by simpa using hhead
    rw [stripL]
    have h1 : List.dropWhile isPyWs (a :: t) = a :: t := by
      rw [List.dropWhile_cons, ha, hc]
      simp
    rw [h1]
    have h2 : (a :: t).reverse.head? = some d := by
      rw [List.head?_reverse]
      exact hlast
    cases hrev : (a :: t).reverse with
    | nil => rw [hrev] at h2; cases h2
    | cons b r =>
      have hb : b = d := by rw [hrev] at h2; simpa using h2
      have hbws : isPyWs b = false := by rw [hb]; exact hd
      rw [List.dropWhile_cons, if_neg (by simp [hbws])]
      rw [← hrev, List.reverse_reverse]

theorem stripL_fenced (X : List Char) :
    stripL ("```json".data ++ X ++ "```".data) =
      "```json".data ++ X ++ "```".data := by
  refine stripL_eq_self_of_ends ("```".data.headD 'j') ("```".data.headD 'j')
    rfl (by decide) ?_ (by decide)
  rw [List.getLast?_append]
  rfl

end PyStr

/-- Claim C7 (amended): for a JSON parser that ignores JSON whitespace
around a document — as `json.loads` does — a body wrapped in a
```` ```json … ``` ```` fence, possibly with whitespace padding between the
fence markers and the body (so in particular the standard
```` ```json\n…\n``` ```` shape), parses to the identical structured result
as the bare body, whenever the bare body is whitespace-clean, does not
itself start with a fence, and is accepted by the JSON parser; and on any
body whose fence-stripped text fails JSON parsing the parser returns,
without raising, the degraded result — sentiment neutral, confidence
exactly 0.0, empty key points, the error marker, and the whitespace- and
fence-stripped text truncated to 200 characters as the fallback summary.
(The original claim said the *raw* text is truncated; the code truncates
the stripped text — see the counterexample.) -/
theorem claim_C7_sentiment_parse_amended :
    (∀ (jloads : String → Option LLM.JsonObj),
      (∀ (a b : List Char) (s : String),
        (∀ c ∈ a, LLM.isJsonWs c = true) → (∀ c ∈ b, LLM.isJsonWs c = true) →
        jloads ⟨a ++ s.data ++ b⟩ = jloads s) →
      ∀ (B : String) (pre post : List Char) (obj : LLM.JsonObj),
        (∀ c ∈ pre, LLM.isJsonWs c = true) →
        (∀ c ∈ post, LLM.isJsonWs c = true) →
        stripL B.data = B.data →
        isPre "```".data B.data = false →
        jloads B = some obj →
        LLM.parseSentimentResponse jloads
            ("```json" ++ ⟨pre⟩ ++ B ++ ⟨post⟩ ++ "```") =
          LLM.parseSentimentResponse jloads B) ∧
    (∀ (jloads : String → Option LLM.JsonObj) (s : String),
      jloads (LLM.stripFences ⟨stripL s.data⟩) = none →
      LLM.parseSentimentResponse jloads s =
        .degraded .neutral 0 []
          (LLM.pyTake200 (LLM.stripFences ⟨stripL s.data⟩))
          "Failed to parse JSON response") := by
  constructor
  · intro jloads hws B pre post obj hpreWs hpostWs hstrip hpre hsome
    have hdata : ("```json" ++ ⟨pre⟩ ++ B ++ ⟨post⟩ ++ "```").data =
        "```json".data ++ (pre ++ B.data ++ post) ++ "```".data := by
      simp [String.data_append, List.append_assoc]
    have hstripF : stripL ("```json" ++ ⟨pre⟩ ++ B ++ ⟨post⟩ ++ "```").data =
        ("```json" ++ ⟨pre⟩ ++ B ++ ⟨post⟩ ++ "```").data := by
      rw [hdata]
      exact stripL_fenced (pre ++ B.data ++ post)
    have hpre1 : isPre "```json".data
        ("```json" ++ ⟨pre⟩ ++ B ++ ⟨post⟩ ++ "```").data = true := by
      rw [hdata, List.append_assoc]
      exact isPre_append _ _
    have hdrop : ("```json" ++ ⟨pre⟩ ++ B ++ ⟨post⟩ ++ "```").data.drop 7 =
        (pre ++ B.data ++ post) ++ "```".data := by
      rw [hdata, List.append_assoc]
      exact List.drop_left "```json".data ((pre ++ B.data ++ post) ++ "```".data)
    have hlen : ("```json" ++ ⟨pre⟩ ++ B ++ ⟨post⟩ ++ "```").data.length - 7 - 3 =
        (pre ++ B.data ++ post).length := by
      rw [hdata, List.length_append, List.length_append]
      have h7 : ("```json".data).length = 7 := rfl
      have h3 : ("```".data).length = 3 := rfl
      omega
    have htake : ((pre ++ B.data ++ post) ++ "```".data).take
        (pre ++ B.data ++ post).length = pre ++ B.data ++ post :=
      List.take_left _ _
    have hlhs : LLM.stripFences
        ⟨stripL ("```json" ++ ⟨pre⟩ ++ B ++ ⟨post⟩ ++ "```").data⟩ =
        ⟨pre ++ B.data ++ post⟩ := by
      rw [hstripF]
      rw [LLM.stripFences]
      have heq : (⟨("```json" ++ ⟨pre⟩ ++ B ++ ⟨post⟩ ++ "```").data⟩ : String) =
          "```json" ++ ⟨pre⟩ ++ B ++ ⟨post⟩ ++ "```" := rfl
      rw [heq, if_pos ?_]
      · rw [LLM.pySliceDrop]
        rw [hdrop, hlen, htake]
      · exact hpre1
    have hpreB : isPre "```json".data B.data = false := by
      cases hj : isPre "```json".data B.data with
      | false => rfl
      | true =>
        exfalso
        rcases (isPre_iff _ _).1 hj with ⟨t, ht⟩
        have : isPre "```".data B.data = true := by
          refine (isPre_iff _ _).2 ⟨"json".data ++ t, ?_⟩
          rw [ht]
          rfl
        rw [this] at hpre
        cases hpre
    have hrhs : LLM.stripFences ⟨stripL B.data⟩ = B := by
      rw [hstrip]
      rw [LLM.stripFences]
      have hB : (⟨B.data⟩ : String) = B := rfl
      rw [hB, if_neg ?_, if_neg ?_]
      · rw [hpre]; exact Bool.false_ne_true
      · rw [hpreB]; exact Bool.false_ne_true
    have hjX : jloads ⟨pre ++ B.data ++ post⟩ = some obj := by
      rw [hws pre post B hpreWs hpostWs]
      exact hsome
    rw [LLM.parseSentimentResponse, LLM.parseSentimentResponse, hlhs, hrhs]
    simp only [hjX, hsome]
  · intro jloads s h
    rw [LLM.parseSentimentResponse, h]

/-- Witness for the amended C7: the standard fenced shape with newlines
around the JSON array literal parses identically to the bare literal (under
a whitespace-insensitive parser), and a plain non-JSON body degrades with
its own (already stripped) text as summary. -/
theorem claim_C7_sentiment_parse_amended_witness :
    LLM.parseSentimentResponse constObjLoads
        ("```json" ++ "\n" ++ "[1, 2]" ++ "\n" ++ "```") =
      LLM.parseSentimentResponse constObjLoads "[1, 2]" ∧
    LLM.parseSentimentResponse alwaysFailLoads "oops" =
      .degraded .neutral 0 [] (LLM.pyTake200 (LLM.stripFences ⟨stripL "oops".data⟩))
        "Failed to parse JSON response" :=
  ⟨claim_C7_sentiment_parse_amended.1 constObjLoads
      (fun a b s _ _ => rfl) "[1, 2]" "\n".data "\n".data {}
      (by decide) (by decide) (by decide) (by decide) rfl,
   claim_C7_sentiment_parse_amended.2 alwaysFailLoads "oops" rfl⟩

namespace DouyinPro

theorem extractRound_invariant (h : String → Int) :
    ∀ (raws : List ProRaw) (acc : List ProComment) (seen : List Int),
      acc.Pairwise (fun a b => h a.text ≠ h b.text) →
      (∀ c ∈ acc, h c.text ∈ seen) →
      (extractRound h raws acc seen).1.Pairwise (fun a b => h a.text ≠ h b.text) ∧
      ∀ c ∈ (extractRound h raws acc seen).1,
        h c.text ∈ (extractRound h raws acc seen).2 := by
  intro raws
  induction raws with
  | nil => intro acc seen h1 h2; exact ⟨h1, h2⟩
  | cons r rs ih =>
    intro acc seen h1 h2
    rw [extractRound]
    split
    · exact ih acc seen h1 h2
    · split
      · exact ih acc seen h1 h2
      · rename_i hseen
        refine ih _ _ ?_ ?_
        · rw [List.pairwise_append]
          refine ⟨h1, List.pairwise_singleton _ _, ?_⟩
          intro a ha b hb
          rcases List.mem_singleton.1 hb with rfl
          intro hEq
          have hmem := h2 a ha
          rw [hEq] at hmem
          exact hseen (List.elem_iff.2 hmem)
        · intro c hc
          rcases List.mem_append.1 hc with hc | hc
          · exact List.mem_cons_of_mem _ (h2 c hc)
          · rcases List.mem_singleton.1 hc with rfl
            exact List.mem_cons_self _ _

end DouyinPro

namespace DouyinPro

theorem extractRound_append_sublist (h : String → Int) :
    ∀ (raws : List ProRaw) (acc : List ProComment) (seen : List Int),
      ∃ u, (extractRound h raws acc seen).1 = acc ++ u ∧
        (u.map fun c => c.text).Sublist (raws.map stripText) := by
  intro raws
  induction raws with
  | nil =>
    intro acc seen
    exact ⟨[], by simp [extractRound], List.nil_sublist _⟩
  | cons r rs ih =>
    intro acc seen
    rw [extractRound]
    split
    · rcases ih acc seen with ⟨u, hu, hsub⟩
      exact ⟨u, hu, List.Sublist.cons _ hsub⟩
    · split
      · rcases ih acc seen with ⟨u, hu, hsub⟩
        exact ⟨u, hu, List.Sublist.cons _ hsub⟩
      · rcases ih (acc ++ [mkProComment r]) (h (stripText r) :: seen)
          with ⟨u, hu, hsub⟩
        refine ⟨mkProComment r :: u, ?_, ?_⟩
        · rw [hu, List.append_assoc]
          rfl
        · rw [List.map_cons]
          exact List.Sublist.cons₂ _ hsub

theorem session_invariant (h : String → Int) (rounds : List (List ProRaw)) :
    ∀ (acc : List ProComment) (seen : List Int),
      acc.Pairwise (fun a b => h a.text ≠ h b.text) →
      (∀ c ∈ acc, h c.text ∈ seen) →
      (rounds.foldl (fun st round => extractRound h round st.1 st.2)
          (acc, seen)).1.Pairwise (fun a b => h a.text ≠ h b.text) := by
  induction rounds with
  | nil => intro acc seen h1 _; exact h1
  | cons round rest ih =>
    intro acc seen h1 h2
    rw [List.foldl_cons]
    have hinv := extractRound_invariant h round acc seen h1 h2
    exact ih _ _ hinv.1 hinv.2

theorem session_sublist (h : String → Int) (rounds : List (List ProRaw)) :
    ∀ (acc : List ProComment) (seen : List Int),
      ∃ u, (rounds.foldl (fun st round => extractRound h round st.1 st.2)
          (acc, seen)).1 = acc ++ u ∧
        (u.map fun c => c.text).Sublist (rounds.flatten.map stripText) := by
  induction rounds with
  | nil =>
    intro acc seen
    exact ⟨[], by simp, List.nil_sublist _⟩
  | cons round rest ih =>
    intro acc seen
    rw [List.foldl_cons]
    rcases extractRound_append_sublist h round acc seen with ⟨u1, hu1, hsub1⟩
    rcases ih (extractRound h round acc seen).1
      (extractRound h round acc seen).2 with ⟨u2, hu2, hsub2⟩
    refine ⟨u1 ++ u2, ?_, ?_⟩
    · rw [hu2, hu1, List.append_assoc]
    · rw [List.flatten_cons, List.map_append, List.map_append]
      exact List.Sublist.append hsub1 hsub2

end DouyinPro

/-- Claim C3 (amended): the hash-based dedup of the `douyin_pro` rendered
strategy has the claimed behaviour — across a whole scraping session no two
accumulated comments share a fingerprint, inserting the same (stripped) text
twice retains exactly one comment, inserting two texts with distinct
fingerprints retains both, and retained comments appear in insertion order
(their texts form a sublist of the stripped candidate texts).  The TikTok
rendered extractor, the claim's other cited accumulation site, has no
content dedup and keeps identical texts (see the counterexample), so the
invariant holds only for the `douyin_pro` deduplicator. -/
theorem claim_C3_dedup_amended :
    (∀ (h : String → Int) (rounds : List (List DouyinPro.ProRaw)),
      (DouyinPro.session h rounds).1.Pairwise
        (fun a b => h a.text ≠ h b.text)) ∧
    (∀ (h : String → Int) (r1 r2 : DouyinPro.ProRaw) (t : String),
      DouyinPro.stripText r1 = t → DouyinPro.stripText r2 = t →
      ¬ (t = "" ∨ t.length < 2) →
      ((DouyinPro.session h [[r1, r2]]).1.map fun c => c.text) = [t]) ∧
    (∀ (h : String → Int) (r1 r2 : DouyinPro.ProRaw) (t1 t2 : String),
      DouyinPro.stripText r1 = t1 → DouyinPro.stripText r2 = t2 →
      ¬ (t1 = "" ∨ t1.length < 2) → ¬ (t2 = "" ∨ t2.length < 2) →
      h t1 ≠ h t2 →
      ((DouyinPro.session h [[r1, r2]]).1.map fun c => c.text) = [t1, t2]) ∧
    (∀ (h : String → Int) (rounds : List (List DouyinPro.ProRaw)),
      ((DouyinPro.session h rounds).1.map fun c => c.text).Sublist
        (rounds.flatten.map DouyinPro.stripText)) := by
  refine ⟨?_, ?_, ?_, ?_⟩
  · intro h rounds
    exact DouyinPro.session_invariant h rounds [] [] (by simp) (by simp)
  · intro h r1 r2 t hs1 hs2 hval
    simp [DouyinPro.session, DouyinPro.extractRound, DouyinPro.mkProComment,
      hs1, hs2, hval]
  · intro h r1 r2 t1 t2 hs1 hs2 hval1 hval2 hne
    simp [DouyinPro.session, DouyinPro.extractRound, DouyinPro.mkProComment,
      hs1, hs2, hval1, hval2]
    rw [if_neg (Ne.symm hne)]
    simp
  · intro h rounds
    rcases DouyinPro.session_sublist h rounds [] [] with ⟨u, hu, hsub⟩
    rw [DouyinPro.session, hu]
    simpa using hsub

/-- Witness for the amended C3 with the length fingerprint: the same text
twice is retained once; two texts of different length (hence distinct
fingerprints) are both retained in order. -/
theorem claim_C3_dedup_amended_witness :
    ((DouyinPro.session (fun s => (s.length : Int))
        [[{ text := some "ab" }, { text := some "ab" }]]).1.map
      fun c => c.text) = ["ab"] ∧
    ((DouyinPro.session (fun s => (s.length : Int))
        [[{ text := some "ab" }, { text := some "abc" }]]).1.map
      fun c => c.text) = ["ab", "abc"] :=
  ⟨claim_C3_dedup_amended.2.1 _ _ _ "ab" (by decide) (by decide) (by decide),
   claim_C3_dedup_amended.2.2.1 _ _ _ "ab" "abc" (by decide) (by decide)
     (by decide) (by decide) (by decide)⟩

namespace TikTokBrowser

theorem mkCommentId_inj (vid : String) {a b : Nat}
    (hab : mkCommentId vid a = mkCommentId vid b) : a = b := by
  have hdata := congrArg String.data hab
  rw [mkCommentId, mkCommentId, String.data_append, String.data_append,
    String.data_append, String.data_append] at hdata
  have hcancel : (PyNum.decRepr a).data = (PyNum.decRepr b).data :=
    List.append_cancel_left hdata
  have hrepr : PyNum.decRepr a = PyNum.decRepr b := congrArg String.mk hcancel
  exact PyNum.decRepr_inj a b hrepr

theorem extractGo_mem (h : String → Int) (vid : String)
    (existing : List TikTokAPI.Comment) (now : Int) :
    ∀ (raws : List DomRaw) (idx : Nat) (c : TikTokAPI.Comment),
      c ∈ extractGo h vid existing now idx raws →
      (∃ j, idx ≤ j ∧ j < idx + raws.length ∧
        c.comment_id = mkCommentId vid (existing.length + j)) ∧
      (existing.any fun e => e.comment_id = c.comment_id) = false := by
  intro raws
  induction raws with
  | nil => intro idx c hc; cases hc
  | cons d rest ih =>
    intro idx c hc
    rw [extractGo] at hc
    by_cases hskip : (existing.any fun e =>
        e.comment_id = mkCommentId vid (existing.length + idx)) = true
    · rw [if_pos hskip] at hc
      rcases ih (idx + 1) c hc with ⟨⟨j, hj1, hj2, hj3⟩, hany⟩
      refine ⟨⟨j, by omega, ?_, hj3⟩, hany⟩
      simp only [List.length_cons]
      omega
    · rw [if_neg hskip] at hc
      rcases List.mem_cons.1 hc with rfl | hc
      · refine ⟨⟨idx, le_rfl, by simp, rfl⟩, ?_⟩
        exact eq_false_of_ne_true hskip
      · rcases ih (idx + 1) c hc with ⟨⟨j, hj1, hj2, hj3⟩, hany⟩
        refine ⟨⟨j, by omega, ?_, hj3⟩, hany⟩
        simp only [List.length_cons]
        omega

theorem extractGo_nodup (h : String → Int) (vid : String)
    (existing : List TikTokAPI.Comment) (now : Int) :
    ∀ (raws : List DomRaw) (idx : Nat),
      ((extractGo h vid existing now idx raws).map
        fun c => c.comment_id).Nodup := by
  intro raws
  induction raws with
  | nil => intro idx; simp [extractGo]
  | cons d rest ih =>
    intro idx
    rw [extractGo]
    split
    · exact ih (idx + 1)
    · rw [List.map_cons]
      refine List.nodup_cons.2 ⟨?_, ih (idx + 1)⟩
      intro hmem
      rcases List.mem_map.1 hmem with ⟨c, hc, hid⟩
      rcases (extractGo_mem h vid existing now rest (idx + 1) c hc).1
        with ⟨j, hj1, hj2, hj3⟩
      rw [hj3] at hid
      have := mkCommentId_inj vid hid
      omega

theorem extractGo_length (h : String → Int) (vid : String)
    (existing : List TikTokAPI.Comment) (now : Int)
    (hns : ∀ n, (existing.any fun e =>
      e.comment_id = mkCommentId vid (existing.length + n)) = false) :
    ∀ (raws : List DomRaw) (idx : Nat),
      (extractGo h vid existing now idx raws).length = raws.length := by
  intro raws
  induction raws with
  | nil => intro idx; rfl
  | cons d rest ih =>
    intro idx
    rw [extractGo, if_neg (by rw [hns idx]; exact Bool.false_ne_true)]
    rw [List.length_cons, ih (idx + 1), List.length_cons]

theorem sessionAux_nodup (h : String → Int) (vid : String) (now : Int) :
    ∀ (rounds : List (List DomRaw)) (acc : List TikTokAPI.Comment),
      ((acc.map fun c => c.comment_id).Nodup ∧
        ∀ c ∈ acc, ∃ j, j < acc.length ∧ c.comment_id = mkCommentId vid j) →
      ((rounds.foldl (fun a round => a ++ extractComments h vid a round now)
          acc).map fun c => c.comment_id).Nodup := by
  intro rounds
  induction rounds with
  | nil => intro acc hQ; exact hQ.1
  | cons round rest ih =>
    intro acc hQ
    rw [List.foldl_cons]
    have hns : ∀ n, (acc.any fun e =>
        e.comment_id = mkCommentId vid (acc.length + n)) = false := by
      intro n
      cases hany : (acc.any fun e =>
          e.comment_id = mkCommentId vid (acc.length + n)) with
      | false => rfl
      | true =>
        exfalso
        rcases List.any_eq_true.1 hany with ⟨e, he, hp⟩
        rcases hQ.2 e he with ⟨j, hj, hje⟩
        have heq := of_decide_eq_true hp
        rw [hje] at heq
        have := mkCommentId_inj vid heq
        omega
    have hlen : (extractComments h vid acc round now).length = round.length :=
      extractGo_length h vid acc now hns round 0
    refine ih _ ⟨?_, ?_⟩
    · rw [List.map_append]
      refine List.nodup_append.2 ⟨hQ.1, extractGo_nodup h vid acc now round 0, ?_⟩
      intro x hx1 hx2
      rcases List.mem_map.1 hx1 with ⟨e, he, hex⟩
      rcases List.mem_map.1 hx2 with ⟨c, hc, hcx⟩
      have hfalse := (extractGo_mem h vid acc now round 0 c hc).2
      have htrue : (acc.any fun e' => e'.comment_id = c.comment_id) = true := by
        refine List.any_eq_true.2 ⟨e, he, ?_⟩
        exact decide_eq_true (by rw [hex, ← hcx])
      rw [hfalse] at htrue
      cases htrue
    · intro c hc
      rcases List.mem_append.1 hc with hc | hc
      · rcases hQ.2 c hc with ⟨j, hj, hje⟩
        refine ⟨j, ?_, hje⟩
        rw [List.length_append]
        omega
      · rcases (extractGo_mem h vid acc now round 0 c hc).1
          with ⟨j, hj1, hj2, hj3⟩
        refine ⟨acc.length + j, ?_, hj3⟩
        rw [List.length_append, hlen]
        omega

end TikTokBrowser

/-- Claim C8 (amended): the rendered-page TikTok strategy does keep its
synthesized `comment_id`s pairwise distinct across a whole session — within
a round the `enumerate` index distinguishes them and the `any` check
excludes clashes with the existing accumulation.  The API strategies do not
enforce id uniqueness: the Douyin synthesized `{video_id}_{index}` restarts
at 0 on every page and collides across pages (see the counterexample), and
vendor-assigned `cid`s pass through unchecked.  There is no deduplicator in
either API strategy. -/
theorem claim_C8_id_uniqueness_amended :
    ∀ (h : String → Int) (vid : String) (now : Int)
      (rounds : List (List TikTokBrowser.DomRaw)),
      ((TikTokBrowser.sessionComments h vid now rounds).map
        fun c => c.comment_id).Nodup := by
  intro h vid now rounds
  exact TikTokBrowser.sessionAux_nodup h vid now rounds []
    ⟨by simp, by simp⟩
